import Mathlib

/-!
# thousandeyes-futures: continuation composition over pollable futures

A shallow embedding of `include/thousandeyes/futures/then.h` and
`include/thousandeyes/futures/detail/FutureWithForwarding.h`.

Conventions of the embedding

* Durations (`std::chrono::microseconds`) are integers counting microseconds;
  the wall clock is a natural number of microseconds.  A call that may block
  receives the clock reading at its start and returns the reading at its end.
* `std::exception_ptr` is `Option Exn`; the null pointer is `none`.
* A `std::promise` carries its shared state; the paired future is identified
  by the promise's `id`.
* Futures handed to the library from outside (the input of `then`, the nested
  result of a continuation) are described by the time at which their shared
  state becomes ready and by the outcome stored in it.
-/

namespace thousandeyes.futures

/-! ## The standard-library primitives the code is written against -/

/-- Exceptions that travel through a `std::exception_ptr`. -/
inductive Exn where
  | WaitableTimedOutException
  | promise_already_satisfied
  | no_state
  | user (code : Nat)
  deriving DecidableEq, Repr

/-- Values of `std::future_status`. -/
inductive future_status where
  | ready
  | timeout
  | deferred
  deriving DecidableEq, Repr

/-- The two class templates the examples bind to the template template
parameter `TFuture`. -/
inductive FutureKind where
  | future
  | shared_future
  deriving DecidableEq, Repr

/-- An asynchronous result handle (`std::future<α>` or `std::shared_future<α>`)
together with what the environment will store in its shared state.

* `valid`: the handle refers to a shared state;
* `deferred`: the state belongs to a `launch::deferred` task that has not run;
* `readyAt`: clock reading at which the state becomes ready (`none`: never);
* `outcome`: the value or exception stored once ready;
* `gets`: how many times `get()` retrieved the result (instrumentation). -/
structure Future (α : Type) where
  kind : FutureKind
  valid : Bool
  deferred : Bool
  readyAt : Option Nat
  outcome : Except Exn α
  gets : Nat

/-- Microsecond count of a non-negative wait; negative durations wait for
nothing. -/
def waitSpan (timeout : Int) : Nat := timeout.toNat

/-- Member `wait_for(timeout)`, called at clock reading `now`: the status and
the clock reading when the call returns.  It is a `const` member: the handle is
not changed.  On a handle without shared state the call raises
`future_error(no_state)`. -/
def Future.wait_for {α : Type} (f : Future α) (now : Nat) (timeout : Int) :
    Except Exn future_status × Nat :=
  if f.valid = false then (.error .no_state, now)
  else if f.deferred then (.ok .deferred, now)
  else
    match f.readyAt with
    | some t =>
      if t ≤ now + waitSpan timeout then (.ok .ready, max now t)
      else (.ok .timeout, now + waitSpan timeout)
    | none => (.ok .timeout, now + waitSpan timeout)

/-- The handle after a successful `get()`: a `std::future` gives up its shared
state, a `std::shared_future` keeps it. -/
def Future.afterGet {α : Type} (f : Future α) (readyAt : Option Nat) : Future α :=
  { f with
    valid := decide (f.kind = .shared_future)
    deferred := false
    readyAt := readyAt
    gets := f.gets + 1 }

/-- Member `get()`, called at clock reading `now`.  `none` means the call never
returns (the shared state never becomes ready).  Otherwise: the value returned
or exception thrown, the handle afterwards, and the clock reading on return.
A deferred task runs inside the call. -/
def Future.get {α : Type} (f : Future α) (now : Nat) :
    Option (Except Exn α × Future α × Nat) :=
  if f.valid = false then some (.error .no_state, f, now)
  else if f.deferred then some (f.outcome, f.afterGet (some now), now)
  else
    match f.readyAt with
    | some t => some (f.outcome, f.afterGet (some t), max now t)
    | none => none

/-- Shared state written by a `std::promise`. -/
inductive SharedState (α : Type) where
  | unset
  | value (v : α)
  | exception (e : Exn)

/-- A `std::promise<α>`: the identity of its shared state and the state. -/
structure promise (α : Type) where
  id : Nat
  state : SharedState α

/-- Member `set_value`: stores the value, or raises
`future_error(promise_already_satisfied)`. -/
def promise.set_value {α : Type} (p : promise α) (v : α) : Except Exn (promise α) :=
  match p.state with
  | .unset => .ok { p with state := .value v }
  | _ => .error .promise_already_satisfied

/-- Member `set_exception`: stores the exception, or raises
`future_error(promise_already_satisfied)`. -/
def promise.set_exception {α : Type} (p : promise α) (e : Exn) : Except Exn (promise α) :=
  match p.state with
  | .unset => .ok { p with state := .exception e }
  | _ => .error .promise_already_satisfied

/-- How a member function call that may block or throw ends. -/
inductive Outcome (σ : Type) where
  | returns (self : σ) (now : Nat)
  | throws (e : Exn) (self : σ) (now : Nat)
  | blocks

/-! ## detail::FutureWithForwarding (FutureWithForwarding.h) -/

namespace detail

/-- Class `FutureWithForwarding<TFuture, T>`: the wait limit handed to the
`TimedWaitable` base, the wrapped result `f_` and the producer `p_`. -/
structure FutureWithForwarding (T : Type) where
  waitLimit : Int
  f_ : Future T
  p_ : promise T

/-- Member `timedWait(timeout)` of the value specialization:
`f_.wait_for(timeout) == std::future_status::ready`.  Returns the answer (or
the exception of `wait_for`), the object afterwards and the clock reading. -/
def FutureWithForwarding.timedWait {T : Type} (self : FutureWithForwarding T)
    (now : Nat) (timeout : Int) :
    Except Exn Bool × FutureWithForwarding T × Nat :=
  match self.f_.wait_for now timeout with
  | (.ok st, t) => (.ok (decide (st = .ready)), self, t)
  | (.error e, t) => (.error e, self, t)

/-- Member `dispatch(err)` of the value specialization. -/
def FutureWithForwarding.dispatch {T : Type} (self : FutureWithForwarding T)
    (now : Nat) (err : Option Exn) : Outcome (FutureWithForwarding T) :=
  match err with
  | some e =>
    -- if (err) { p_.set_exception(err); return; }
    match self.p_.set_exception e with
    | .ok p => .returns { self with p_ := p } now
    | .error x => .throws x self now
  | none =>
    -- try { p_.set_value(f_.get()); }
    match self.f_.get now with
    | none => .blocks
    | some (.ok v, f, t) =>
      match self.p_.set_value v with
      | .ok p => .returns { self with f_ := f, p_ := p } t
      | .error x =>
        -- catch (...) { p_.set_exception(std::current_exception()); }
        match self.p_.set_exception x with
        | .ok p => .returns { self with f_ := f, p_ := p } t
        | .error y => .throws y { self with f_ := f } t
    | some (.error x, f, t) =>
      -- catch (...) { p_.set_exception(std::current_exception()); }
      match self.p_.set_exception x with
      | .ok p => .returns { self with f_ := f, p_ := p } t
      | .error y => .throws y { self with f_ := f } t

/-- Class `FutureWithForwarding<TFuture, void>`: the partial specialization for
the void output type. -/
structure FutureWithForwardingVoid where
  waitLimit : Int
  f_ : Future Unit
  p_ : promise Unit

/-- Member `timedWait(timeout)` of the void specialization. -/
def FutureWithForwardingVoid.timedWait (self : FutureWithForwardingVoid)
    (now : Nat) (timeout : Int) :
    Except Exn Bool × FutureWithForwardingVoid × Nat :=
  match self.f_.wait_for now timeout with
  | (.ok st, t) => (.ok (decide (st = .ready)), self, t)
  | (.error e, t) => (.error e, self, t)

/-- Member `dispatch(err)` of the void specialization. -/
def FutureWithForwardingVoid.dispatch (self : FutureWithForwardingVoid)
    (now : Nat) (err : Option Exn) : Outcome FutureWithForwardingVoid :=
  match err with
  | some e =>
    -- if (err) { p_.set_exception(err); return; }
    match self.p_.set_exception e with
    | .ok p => .returns { self with p_ := p } now
    | .error x => .throws x self now
  | none =>
    -- try { f_.get(); p_.set_value(); }
    match self.f_.get now with
    | none => .blocks
    | some (.ok _, f, t) =>
      match self.p_.set_value () with
      | .ok p => .returns { self with f_ := f, p_ := p } t
      | .error x =>
        match self.p_.set_exception x with
        | .ok p => .returns { self with f_ := f, p_ := p } t
        | .error y => .throws y { self with f_ := f } t
    | some (.error x, f, t) =>
      match self.p_.set_exception x with
      | .ok p => .returns { self with f_ := f, p_ := p } t
      | .error y => .throws y { self with f_ := f } t

end detail

/-! ## Return-type routing of `then` (then.h, type level) -/

/-- Names of class templates. -/
inductive Template where
  | future
  | shared_future
  | basic_string
  | named (n : Nat)
  deriving DecidableEq, Repr

/-- C++ types, as far as the routing inspects them.  A template instance
`C<A, B>` is `app (app (tmpl C) A) B`; `tmpl C` alone is `C<>`. -/
inductive Ty where
  | plain (name : Nat)
  | tmpl (c : Template)
  | app (head : Ty) (arg : Ty)
  deriving DecidableEq, Repr

/-- The instance `C<a>` of a one-parameter class template, as in `TFuture<TIn>`. -/
def Ty.inst1 (c : Template) (a : Ty) : Ty := .app (.tmpl c) a

/-- The class template a type is an instance of, if any. -/
def Ty.templateOf : Ty → Option Template
  | .plain _ => none
  | .tmpl c => some c
  | .app h _ => h.templateOf

/-- The first template argument of a template instance, if it has one. -/
def Ty.firstArg : Ty → Option Ty
  | .plain _ => none
  | .tmpl _ => none
  | .app (.tmpl _) a => some a
  | .app h _ => h.firstArg

/-- The two members of `detail/typetraits.h` that then.h uses.  The header is
not among the sources, so the routing takes them as a parameter:
`is_template T` is `detail::is_template<T>::value` and `nth_template_param0 T`
is `detail::nth_template_param<0, T>::type`. -/
structure typetraits where
  is_template : Ty → Bool
  nth_template_param0 : Ty → Ty

/-- Modelled from the spec: `detail::is_template` and
`detail::nth_template_param` of typetraits.h (not among the sources), read as
the routing rule uses them: a type is a template when it is a template
instance, and its parameter 0 is its first template argument.  For a type
without a first argument the member type is some type (here the type itself);
the examples instantiate the trait at `double` and `void`. -/
def typetraits.std : typetraits where
  is_template := fun T => T.templateOf.isSome
  nth_template_param0 := fun T => T.firstArg.getD T

/-- Type of a continuation object: what it accepts and what it returns. -/
structure TFunc where
  param : Ty
  ret : Ty
  deriving DecidableEq, Repr

/-- Whether an argument of type `a` can initialise a parameter of type `b`:
the same type, or a `std::future<X>` converted to a `std::shared_future<X>`. -/
def convertible (a b : Ty) : Bool :=
  decide (a = b) ||
  (match a with
   | .app (.tmpl .future) x => decide (b = Ty.inst1 .shared_future x)
   | _ => false)

/-- The member type of `std::result_of<std::decay<TFunc>::type(arg)>`; `none`
when the continuation cannot be called with `arg`. -/
def result_of (F : TFunc) (arg : Ty) : Option Ty :=
  if convertible arg F.param then some F.ret else none

/-- Alias `is_res_encapsulated_in_future<TFuture, TIn, TFunc>`:
`std::is_same<TFuture<nth_template_param<0, R>::type>, R>` for the
continuation's result type `R`.  `none` when `R` does not exist. -/
def is_res_encapsulated_in_future (tr : typetraits) (TFuture : Template) (TIn : Ty)
    (F : TFunc) : Option Bool :=
  match result_of F (Ty.inst1 TFuture TIn) with
  | some R => some (decide (Ty.inst1 TFuture (tr.nth_template_param0 R) = R))
  | none => none

/-- Alias `cont_returns_value_t<TFuture, TIn, TFunc>`: the return type of the
direct-value overloads, `none` when `std::enable_if` removes them. -/
def cont_returns_value_t (tr : typetraits) (TFuture : Template) (TIn : Ty)
    (F : TFunc) : Option Ty :=
  match result_of F (Ty.inst1 TFuture TIn),
        is_res_encapsulated_in_future tr TFuture TIn F with
  | some R, some enc =>
    if !tr.is_template R || !enc then some (Ty.inst1 TFuture R) else none
  | _, _ => none

/-- Alias `cont_returns_future_t<TFuture, TIn, TFunc>`: the return type of the
flatten overloads, `none` when `std::enable_if` removes them. -/
def cont_returns_future_t (tr : typetraits) (TFuture : Template) (TIn : Ty)
    (F : TFunc) : Option Ty :=
  match result_of F (Ty.inst1 TFuture TIn),
        is_res_encapsulated_in_future tr TFuture TIn F with
  | some R, some enc =>
    if tr.is_template R && enc then some R else none
  | _, _ => none

/-- The alias `TOut` inside the direct-value `then`: the continuation's result
type. -/
def TOut_value (TFuture : Template) (TIn : Ty) (F : TFunc) : Option Ty :=
  result_of F (Ty.inst1 TFuture TIn)

/-- The type `std::string`, an instance of `std::basic_string` (its traits and
allocator arguments are kept as plain names). -/
def Ty.string : Ty := .app (.app (.app (.tmpl .basic_string) (.plain 2)) (.plain 3)) (.plain 4)

/-- The type `int`. -/
def Ty.int : Ty := .plain 1

/-- The type `void`. -/
def Ty.void : Ty := .plain 0

/-! ## Watched operations created by `then` and the Executor

The headers `detail/FutureWithContinuation.h`, `detail/FutureWithChaining.h`,
`TimedWaitable.h`, `Executor.h` and `Default.h` are not among the sources; the
definitions of this section follow the specification (sections 3, 4.1, 4.2 and
4.3) and the sibling class `FutureWithForwarding`. -/

/-- How the second stage of a flatten chain receives its time limit.  The
specification says the limit is "inherited from chaining" and the comment of
the flatten `then` calls `timeLimit` "the maximum time to wait for both
futures"; the two readings are kept apart:
* `fullLimit`: the second operation is constructed with the same limit;
* `remaining`: it is constructed with what the first stage left over. -/
inductive ChainBudget where
  | fullLimit
  | remaining
  deriving DecidableEq, Repr

namespace detail

/-- Modelled from the spec: class `detail::FutureWithContinuation` (its header
is missing), the watched operation of the direct-value form.  It holds the
wait limit, the input result, the producer of the new result and the
continuation; `calls` counts the invocations of the continuation
(instrumentation). -/
structure FutureWithContinuation (TIn TOut : Type) where
  waitLimit : Int
  f_ : Future TIn
  p_ : promise TOut
  cont_ : Future TIn → Except Exn TOut
  calls : Nat

/-- Modelled from the spec: the probe of `FutureWithContinuation`, a bounded
wait on the input result, as in `FutureWithForwarding::timedWait`. -/
def FutureWithContinuation.timedWait {TIn TOut : Type}
    (self : FutureWithContinuation TIn TOut) (now : Nat) (timeout : Int) :
    Except Exn Bool × FutureWithContinuation TIn TOut × Nat :=
  match self.f_.wait_for now timeout with
  | (.ok st, t) => (.ok (decide (st = .ready)), self, t)
  | (.error e, t) => (.error e, self, t)

/-- Modelled from the spec: `FutureWithContinuation::dispatch` (header
missing).  With an error the producer receives the error.  Otherwise the
continuation is invoked on the input result, which is moved into it; its
return value is written into the producer and an exception it raises becomes
the new result's error. -/
def FutureWithContinuation.dispatch {TIn TOut : Type}
    (self : FutureWithContinuation TIn TOut) (now : Nat) (err : Option Exn) :
    Outcome (FutureWithContinuation TIn TOut) :=
  match err with
  | some e =>
    match self.p_.set_exception e with
    | .ok p => .returns { self with p_ := p } now
    | .error x => .throws x self now
  | none =>
    let moved : Future TIn := { self.f_ with valid := false }
    match self.cont_ self.f_ with
    | .ok v =>
      match self.p_.set_value v with
      | .ok p => .returns { self with f_ := moved, p_ := p, calls := self.calls + 1 } now
      | .error x =>
        match self.p_.set_exception x with
        | .ok p => .returns { self with f_ := moved, p_ := p, calls := self.calls + 1 } now
        | .error y => .throws y { self with f_ := moved, calls := self.calls + 1 } now
    | .error x =>
      match self.p_.set_exception x with
      | .ok p => .returns { self with f_ := moved, p_ := p, calls := self.calls + 1 } now
      | .error y => .throws y { self with f_ := moved, calls := self.calls + 1 } now

/-- Modelled from the spec: class `detail::FutureWithChaining` (its header is
missing), the first stage of the flatten form.  The continuation returns the
nested result. -/
structure FutureWithChaining (TIn TOut : Type) where
  waitLimit : Int
  f_ : Future TIn
  p_ : promise TOut
  cont_ : Future TIn → Except Exn (Future TOut)
  calls : Nat

/-- Modelled from the spec: the probe of `FutureWithChaining`, a bounded wait
on the input result. -/
def FutureWithChaining.timedWait {TIn TOut : Type}
    (self : FutureWithChaining TIn TOut) (now : Nat) (timeout : Int) :
    Except Exn Bool × FutureWithChaining TIn TOut × Nat :=
  match self.f_.wait_for now timeout with
  | (.ok st, t) => (.ok (decide (st = .ready)), self, t)
  | (.error e, t) => (.error e, self, t)

/-- The time limit of the second stage, from the limit of the first stage and
the time the first stage has been waited on. -/
def stageLimit (budget : ChainBudget) (waitLimit : Int) (elapsed : Int) : Int :=
  match budget with
  | .fullLimit => waitLimit
  | .remaining => waitLimit - elapsed

/-- Modelled from the spec: `FutureWithChaining::dispatch` (header missing).
With an error the producer receives the error and no second stage is created.
Otherwise the continuation is invoked on the input result to obtain the nested
result; an exception it raises goes to the producer; on success the producer
is moved into a `FutureWithForwarding` on the nested result, which is returned
for registration on the same executor. -/
def FutureWithChaining.dispatch {TIn TOut : Type} (budget : ChainBudget)
    (self : FutureWithChaining TIn TOut) (now : Nat) (elapsed : Int) (err : Option Exn) :
    Outcome (FutureWithChaining TIn TOut × Option (FutureWithForwarding TOut)) :=
  match err with
  | some e =>
    match self.p_.set_exception e with
    | .ok p => .returns ({ self with p_ := p }, none) now
    | .error x => .throws x (self, none) now
  | none =>
    let moved : Future TIn := { self.f_ with valid := false }
    match self.cont_ self.f_ with
    | .ok nested =>
      .returns
        ({ self with f_ := moved, calls := self.calls + 1 },
         some { waitLimit := stageLimit budget self.waitLimit elapsed
                f_ := nested
                p_ := self.p_ })
        now
    | .error x =>
      match self.p_.set_exception x with
      | .ok p => .returns ({ self with f_ := moved, p_ := p, calls := self.calls + 1 }, none) now
      | .error y => .throws y ({ self with f_ := moved, calls := self.calls + 1 }, none) now

end detail

/-- The operations an executor of this development watches: the three classes
that `then` and its first stage create. -/
inductive Waitable (TIn TOut : Type) where
  | continuation (c : detail.FutureWithContinuation TIn TOut)
  | chaining (c : detail.FutureWithChaining TIn TOut)
  | forwarding (c : detail.FutureWithForwarding TOut)

/-- The wait limit given to the `TimedWaitable` base. -/
def Waitable.waitLimit {TIn TOut : Type} : Waitable TIn TOut → Int
  | .continuation c => c.waitLimit
  | .chaining c => c.waitLimit
  | .forwarding c => c.waitLimit

/-- The producer the operation completes. -/
def Waitable.p_ {TIn TOut : Type} : Waitable TIn TOut → promise TOut
  | .continuation c => c.p_
  | .chaining c => c.p_
  | .forwarding c => c.p_

/-- The virtual call `timedWait(timeout)`. -/
def Waitable.timedWait {TIn TOut : Type} (op : Waitable TIn TOut) (now : Nat) (timeout : Int) :
    Except Exn Bool × Waitable TIn TOut × Nat :=
  match op with
  | .continuation c =>
    match c.timedWait now timeout with
    | (r, c', t) => (r, .continuation c', t)
  | .chaining c =>
    match c.timedWait now timeout with
    | (r, c', t) => (r, .chaining c', t)
  | .forwarding c =>
    match c.timedWait now timeout with
    | (r, c', t) => (r, .forwarding c', t)

/-- What one call of `dispatch` leaves behind: the producer's identity and its
state after the call, the number of continuation invocations the operation has
made, the operation handed to `executor_->watch` (second stage), and the
exception that left `dispatch`, if any. -/
structure Dispatched (TOut : Type) where
  id : Nat
  state : SharedState TOut
  calls : Nat
  spawned : Option (detail.FutureWithForwarding TOut)
  escaped : Option Exn

/-- The virtual call `dispatch(err)`; `none` when the call never returns. -/
def Waitable.dispatch {TIn TOut : Type} (budget : ChainBudget) (op : Waitable TIn TOut)
    (now : Nat) (elapsed : Int) (err : Option Exn) : Option (Dispatched TOut × Nat) :=
  match op with
  | .continuation c =>
    match c.dispatch now err with
    | .returns c' t => some (⟨c'.p_.id, c'.p_.state, c'.calls, none, none⟩, t)
    | .throws e c' t => some (⟨c'.p_.id, c'.p_.state, c'.calls, none, some e⟩, t)
    | .blocks => none
  | .chaining c =>
    match c.dispatch budget now elapsed err with
    | .returns (c', sp) t => some (⟨c'.p_.id, c'.p_.state, c'.calls, sp, none⟩, t)
    | .throws e (c', sp) t => some (⟨c'.p_.id, c'.p_.state, c'.calls, sp, some e⟩, t)
    | .blocks => none
  | .forwarding c =>
    match c.dispatch now err with
    | .returns c' t => some (⟨c'.p_.id, c'.p_.state, 0, none, none⟩, t)
    | .throws e c' t => some (⟨c'.p_.id, c'.p_.state, 0, none, some e⟩, t)
    | .blocks => none

/-- Modelled from the spec: a `WatchedOperation` as the executor holds it: the
operation and the clock reading at which it was registered; its deadline is
`start + waitLimit`. -/
structure WatchedOperation (TIn TOut : Type) where
  op : Waitable TIn TOut
  start : Nat

/-- One call of `complete()` made by the worker: the error argument (`none`
on readiness), the clock reading, and what the call left behind. -/
structure Completion (TOut : Type) where
  err : Option Exn
  time : Nat
  result : Dispatched TOut

/-- Whether a shared state holds a value or an exception. -/
def SharedState.isSet {α : Type} : SharedState α → Bool
  | .unset => false
  | _ => true

/-- Modelled from the spec: the state of a running `Executor` (Executor.h and
its implementation are missing): the polling slice `q` given at construction,
the worker's clock, the pending set (registered, not yet scheduled), the active
set (currently polled), the record of the `complete()` calls made so far, and
whether the worker is stuck inside a call that never returns.  Shutdown
(`stop()`) is not part of this development. -/
structure Executor (TIn TOut : Type) where
  q : Int
  now : Nat
  pending : List (WatchedOperation TIn TOut)
  active : List (WatchedOperation TIn TOut)
  completions : List (Completion TOut)
  hung : Bool

/-- Modelled from the spec: `Executor::watch`, non-blocking registration: the
operation joins the pending set; its time limit starts to run. -/
def Executor.watch {TIn TOut : Type} (ex : Executor TIn TOut) (op : Waitable TIn TOut) :
    Executor TIn TOut :=
  { ex with pending := ex.pending ++ [⟨op, ex.now⟩] }

/-- Modelled from the spec: the worker calls `complete(err)` on an operation
and removes it.  The call is recorded; an operation the call hands to
`executor_->watch` is registered; an exception leaving the call is dropped
(it "must never abort the worker"). -/
def Executor.complete {TIn TOut : Type} (budget : ChainBudget) (ex : Executor TIn TOut)
    (w : WatchedOperation TIn TOut) (t : Nat) (err : Option Exn) : Executor TIn TOut :=
  match w.op.dispatch budget t ((t : Int) - (w.start : Int)) err with
  | none => { ex with now := t, hung := true }
  | some (d, t') =>
    let ex' : Executor TIn TOut :=
      { ex with now := t', completions := ex.completions ++ [⟨err, t', d⟩] }
    match d.spawned with
    | some fw => ex'.watch (.forwarding fw)
    | none => ex'

/-- Modelled from the spec: the wall-clock reading the worker takes after a
probe that began at `now` and came back without the result at `t`.  The
deadline is wall-clock (spec 5) and no operation hangs for ever (spec 7): an
unsuccessful probe has taken time, at least one unit of the clock, also when
the bounded wait returned at once (a polling slice of zero, a deferred task). -/
def probeEnd (now t : Nat) : Nat := max t (now + 1)

/-- Modelled from the spec: steps (b) and (c) of the worker loop for one
active operation: probe it with the polling slice; on ready call `complete()`
with no error; once the elapsed time exceeds the operation's time limit call
`complete()` with `WaitableTimedOutException`; an error raised by the probe
goes to the operation's own producer; otherwise the operation stays active. -/
def Executor.step {TIn TOut : Type} (budget : ChainBudget) (ex : Executor TIn TOut)
    (w : WatchedOperation TIn TOut) : Executor TIn TOut :=
  if ex.hung then ex
  else
    match w.op.timedWait ex.now ex.q with
    | (.ok true, op, t) => ex.complete budget ⟨op, w.start⟩ t none
    | (.ok false, op, t) =>
      if op.waitLimit < ((probeEnd ex.now t : Nat) : Int) - (w.start : Int) then
        ex.complete budget ⟨op, w.start⟩ (probeEnd ex.now t)
          (some .WaitableTimedOutException)
      else { ex with now := probeEnd ex.now t, active := ex.active ++ [⟨op, w.start⟩] }
    | (.error e, op, t) => ex.complete budget ⟨op, w.start⟩ t (some e)

/-- Modelled from the spec: one round of the worker loop: (a) merge the newly
registered operations into the active set, (b, c) probe each active operation
in registration order, (d) idle for a polling slice when there is none. -/
def Executor.poll {TIn TOut : Type} (budget : ChainBudget) (ex : Executor TIn TOut) :
    Executor TIn TOut :=
  if ex.hung then ex
  else if (ex.active ++ ex.pending).isEmpty then { ex with now := ex.now + waitSpan ex.q }
  else (ex.active ++ ex.pending).foldl (Executor.step budget) { ex with active := [], pending := [] }

/-- The executor after `n` rounds of the worker loop. -/
def Executor.run {TIn TOut : Type} (budget : ChainBudget) :
    Nat → Executor TIn TOut → Executor TIn TOut
  | 0, ex => ex
  | n + 1, ex => Executor.run budget n (ex.poll budget)

/-- The `complete()` calls that left the shared state `id` set. -/
def Executor.settled {TIn TOut : Type} (ex : Executor TIn TOut) (id : Nat) :
    List (Completion TOut) :=
  ex.completions.filter (fun c => decide (c.result.id = id) && c.result.state.isSet)

/-- What a reader of the shared state `id` observes: unset until a
`complete()` call has set it. -/
def Executor.resultState {TIn TOut : Type} (ex : Executor TIn TOut) (id : Nat) :
    SharedState TOut :=
  match ex.settled id with
  | c :: _ => c.result.state
  | [] => .unset

/-- The `complete()` calls made on operations that hold the producer `id`. -/
def Executor.completionsOf {TIn TOut : Type} (ex : Executor TIn TOut) (id : Nat) :
    List (Completion TOut) :=
  ex.completions.filter (fun c => decide (c.result.id = id))

/-! ## The process state and the `then` overloads (then.h) -/

/-- Modelled from the spec: the process as `then` sees it: the `Executor`
objects (a `std::shared_ptr<Executor>` is an index into `executors`, the null
pointer is `none`), the slot of the default-instance registry for `Executor`
(Default.h is missing), and the identity of the next shared state a
`std::promise` constructor allocates. -/
structure World (TIn TOut : Type) where
  executors : List (Executor TIn TOut)
  dflt : Option Nat
  nextShared : Nat

/-- Modelled from the spec: `Default<Executor>()`, the current default of the
registry ("get-current-default per component type"); null when none is
installed. -/
def Default_Executor {TIn TOut : Type} (w : World TIn TOut) : Option Nat := w.dflt

/-- Modelled from the spec: the scoped setter `Default<Executor>::Setter`: it
remembers the prior default to restore it on scope exit. -/
structure Setter where
  prior : Option Nat

/-- Modelled from the spec: constructing a `Default<Executor>::Setter`
installs the new default. -/
def Setter.install {TIn TOut : Type} (w : World TIn TOut) (executor : Option Nat) :
    World TIn TOut × Setter :=
  ({ w with dflt := executor }, ⟨w.dflt⟩)

/-- Modelled from the spec: destroying the setter restores the prior default. -/
def Setter.restore {TIn TOut : Type} (w : World TIn TOut) (s : Setter) : World TIn TOut :=
  { w with dflt := s.prior }

/-- The call `executor->watch(op)` through a shared pointer; `none` when the
pointer is null or refers to no executor (undefined behaviour). -/
def World.watch {TIn TOut : Type} (w : World TIn TOut) (executor : Option Nat)
    (op : Waitable TIn TOut) : Option (World TIn TOut) :=
  match executor with
  | none => none
  | some i =>
    match w.executors.get? i with
    | none => none
    | some ex => some { w with executors := w.executors.set i (ex.watch op) }

/-- The result `then` returns: a `TFuture` of the kind of the input, reading
the shared state `id`. -/
structure Result where
  kind : FutureKind
  id : Nat
  deriving DecidableEq, Repr

/-- The signed 64-bit representation of `std::chrono::microseconds`. -/
def int64 (n : Int) : Int := (n + 2 ^ 63) % 2 ^ 64 - 2 ^ 63

/-- The conversion of `std::chrono::hours(h)` to `std::chrono::microseconds`. -/
def hours (h : Int) : Int := int64 (h * 3600000000)

/-- Direct-value form, full overload:
`then(executor, timeLimit, f, cont)` with return type `cont_returns_value_t`. -/
def then_value {TIn TOut : Type} (w : World TIn TOut) (executor : Option Nat)
    (timeLimit : Int) (f : Future TIn) (cont : Future TIn → Except Exn TOut) :
    Option (World TIn TOut × Result) :=
  -- std::promise<TOut> p;
  let p : promise TOut := ⟨w.nextShared, .unset⟩
  let w1 : World TIn TOut := { w with nextShared := w.nextShared + 1 }
  -- auto result = p.get_future();
  let result : Result := ⟨f.kind, p.id⟩
  -- executor->watch(std::make_unique<detail::FutureWithContinuation<...>>(timeLimit, f, p, cont));
  match w1.watch executor (.continuation ⟨timeLimit, f, p, cont, 0⟩) with
  | some w2 => some (w2, result)
  | none => none

/-- Direct-value form, `then(executor, f, cont)`. -/
def then_value_executor {TIn TOut : Type} (w : World TIn TOut) (executor : Option Nat)
    (f : Future TIn) (cont : Future TIn → Except Exn TOut) :
    Option (World TIn TOut × Result) :=
  then_value w executor (hours 1) f cont

/-- Direct-value form, `then(timeLimit, f, cont)`. -/
def then_value_timeLimit {TIn TOut : Type} (w : World TIn TOut)
    (timeLimit : Int) (f : Future TIn) (cont : Future TIn → Except Exn TOut) :
    Option (World TIn TOut × Result) :=
  then_value w (Default_Executor w) timeLimit f cont

/-- Direct-value form, `then(f, cont)`. -/
def then_value_default {TIn TOut : Type} (w : World TIn TOut)
    (f : Future TIn) (cont : Future TIn → Except Exn TOut) :
    Option (World TIn TOut × Result) :=
  then_value_timeLimit w (hours 1) f cont

/-- Flatten form, full overload:
`then(executor, timeLimit, f, cont)` with return type `cont_returns_future_t`. -/
def then_future {TIn TOut : Type} (w : World TIn TOut) (executor : Option Nat)
    (timeLimit : Int) (f : Future TIn) (cont : Future TIn → Except Exn (Future TOut)) :
    Option (World TIn TOut × Result) :=
  -- std::promise<TOut> p;
  let p : promise TOut := ⟨w.nextShared, .unset⟩
  let w1 : World TIn TOut := { w with nextShared := w.nextShared + 1 }
  -- auto result = p.get_future();
  let result : Result := ⟨f.kind, p.id⟩
  -- executor->watch(std::make_unique<detail::FutureWithChaining<...>>(timeLimit, executor, f, p, cont));
  match w1.watch executor (.chaining ⟨timeLimit, f, p, cont, 0⟩) with
  | some w2 => some (w2, result)
  | none => none

/-- Flatten form, `then(executor, f, cont)`. -/
def then_future_executor {TIn TOut : Type} (w : World TIn TOut) (executor : Option Nat)
    (f : Future TIn) (cont : Future TIn → Except Exn (Future TOut)) :
    Option (World TIn TOut × Result) :=
  then_future w executor (hours 1) f cont

/-- Flatten form, `then(timeLimit, f, cont)`. -/
def then_future_timeLimit {TIn TOut : Type} (w : World TIn TOut)
    (timeLimit : Int) (f : Future TIn) (cont : Future TIn → Except Exn (Future TOut)) :
    Option (World TIn TOut × Result) :=
  then_future w (Default_Executor w) timeLimit f cont

/-- Flatten form, `then(f, cont)`. -/
def then_future_default {TIn TOut : Type} (w : World TIn TOut)
    (f : Future TIn) (cont : Future TIn → Except Exn (Future TOut)) :
    Option (World TIn TOut × Result) :=
  then_future_timeLimit w (hours 1) f cont

/-- The executor a shared pointer refers to. -/
def World.executor {TIn TOut : Type} (w : World TIn TOut) (executor : Option Nat) :
    Option (Executor TIn TOut) :=
  match executor with
  | none => none
  | some i => w.executors.get? i

/-- The value or error a reader of `result` observes after the worker of
`executor` has made `n` rounds; `none` when the pointer refers to no executor. -/
def World.observe {TIn TOut : Type} (budget : ChainBudget) (w : World TIn TOut)
    (executor : Option Nat) (n : Nat) (result : Result) : Option (SharedState TOut) :=
  (w.executor executor).map (fun ex => (ex.run budget n).resultState result.id)

/-- A ready input: a valid handle of the given kind whose shared state holds
`v` since clock reading `t`. -/
def ready {α : Type} (kind : FutureKind) (t : Nat) (v : α) : Future α :=
  { kind := kind, valid := true, deferred := false, readyAt := some t, outcome := .ok v, gets := 0 }

/-! ## Predicates used in the statements -/

/-- The wrapped result has completed by the clock reading `now` with the given
outcome: the handle is valid, its task is not deferred, and the shared state
became ready at or before `now`. -/
def Future.completedWith {α : Type} (f : Future α) (now : Nat) (o : Except Exn α) : Prop :=
  f.valid = true ∧ f.deferred = false ∧ (∃ t, f.readyAt = some t ∧ t ≤ now) ∧ f.outcome = o

/-- A wrapped result that completed at clock reading 0 with the error
`user 1`. -/
def failedInput : Future Nat :=
  { kind := .future, valid := true, deferred := false, readyAt := some 0,
    outcome := .error (.user 1), gets := 0 }

/-- A wrapped result that never becomes ready. -/
def neverReady (kind : FutureKind) : Future Nat :=
  { kind := kind, valid := true, deferred := false, readyAt := none,
    outcome := .ok 0, gets := 0 }

/-- A forwarding operation whose producer already holds the value 7 and whose
wrapped result failed with `user 1`. -/
def satisfiedForwarding : detail.FutureWithForwarding Nat :=
  { waitLimit := 1000, f_ := failedInput, p_ := ⟨0, .value 7⟩ }

/-- A forwarding operation whose producer already holds the value 7 and whose
wrapped result never becomes ready. -/
def satisfiedWaiting : detail.FutureWithForwarding Nat :=
  { waitLimit := 1000, f_ := neverReady .future, p_ := ⟨0, .value 7⟩ }

/-- Whether a watched operation holds the producer of the shared state `id`. -/
def WatchedOperation.holds {TIn TOut : Type} (id : Nat) (w : WatchedOperation TIn TOut) : Bool :=
  decide (w.op.p_.id = id)

/-- Whether the shared state `id` occurs in the executor: as the producer of a
registered operation or in the record of a `complete()` call. -/
def Executor.mentions {TIn TOut : Type} (ex : Executor TIn TOut) (id : Nat) : Bool :=
  (ex.active ++ ex.pending).any (WatchedOperation.holds id) ||
  ex.completions.any (fun c => decide (c.result.id = id))

/-- The executor `ex2` differs from `ex1` only by work on operations that do
not hold the producer `id`: same polling slice, same worker status, a clock
that did not go back, and the same operations and `complete()` records for
`id`. -/
structure Executor.Untouched {TIn TOut : Type} (id : Nat) (ex1 ex2 : Executor TIn TOut) :
    Prop where
  q : ex2.q = ex1.q
  hung : ex2.hung = ex1.hung
  now : ex1.now ≤ ex2.now
  active : ex2.active.filter (WatchedOperation.holds id) =
    ex1.active.filter (WatchedOperation.holds id)
  pending : ex2.pending.filter (WatchedOperation.holds id) =
    ex1.pending.filter (WatchedOperation.holds id)
  completions : ex2.completionsOf id = ex1.completionsOf id

/-- How many times an operation has invoked its continuation; a forwarding
operation has none. -/
def Waitable.calls {TIn TOut : Type} : Waitable TIn TOut → Nat
  | .continuation c => c.calls
  | .chaining c => c.calls
  | .forwarding _ => 0

/-- The shared state `id`, whose operation was registered on `executor` at
clock reading `start` with the time limit `timeLimit`, ends with a timeout:
from some round `n0` of the worker on, exactly one `complete()` call has been
made for it, at a clock reading `T` later than `start + timeLimit`, with
`WaitableTimedOutException` as its argument, without invoking the
continuation and without a second stage; the shared state then holds that
exception and has been set once.  Before round `n0` no `complete()` call has
been made for it and it is unset. -/
def World.timesOut {TIn TOut : Type} (budget : ChainBudget) (w : World TIn TOut)
    (executor : Option Nat) (id start : Nat) (timeLimit : Int) : Prop :=
  ∃ ex, w.executor executor = some ex ∧ ∃ (n0 T : Nat), 1 ≤ n0 ∧
    (start : Int) + timeLimit < (T : Int) ∧
    (∀ n, n0 ≤ n →
      (ex.run budget n).completionsOf id =
        [⟨some .WaitableTimedOutException, T,
          ⟨id, .exception .WaitableTimedOutException, 0, none, none⟩⟩] ∧
      (ex.run budget n).resultState id = .exception .WaitableTimedOutException ∧
      ((ex.run budget n).settled id).length = 1) ∧
    (∀ n, n < n0 →
      (ex.run budget n).completionsOf id = [] ∧
      (ex.run budget n).resultState id = .unset)

/-- A process with one running executor (polling slice 10 microseconds, clock
at 0, nothing registered) installed as the default. -/
def freshWorld : World Nat String :=
  { executors := [⟨10, 0, [], [], [], false⟩], dflt := some 0, nextShared := 0 }

/-- The continuation of the first example: `to_string(f.get())`. -/
def to_string_cont : Future Nat → Except Exn String :=
  fun f =>
    match f.outcome with
    | .ok n => .ok (toString n)
    | .error e => .error e

/-- The continuation of the second example: it retrieves the input and returns
a `std::future<std::string>` that resolves to `to_string(val)` at clock
reading 25. -/
def to_string_async_cont : Future Nat → Except Exn (Future String) :=
  fun f =>
    match f.outcome with
    | .ok n => .ok (ready .future 25 (toString n))
    | .error e => .error e

/-- A well-formed process state: no executor mentions a shared state that the
`std::promise` constructor has not allocated yet. -/
def World.wf {TIn TOut : Type} (w : World TIn TOut) : Prop :=
  ∀ ex ∈ w.executors, ∀ id, w.nextShared ≤ id → ex.mentions id = false

/-- The type of the continuation of the fourth example of conversion.cpp:
`std::shared_future<int> -> std::shared_future<std::string>`. -/
def mixedKindCont : TFunc :=
  { param := Ty.inst1 .shared_future Ty.int, ret := Ty.inst1 .shared_future Ty.string }

/-- Applies a function to the object an ended call leaves behind. -/
def Outcome.map {σ τ : Type} (g : σ → τ) : Outcome σ → Outcome τ
  | .returns self now => .returns (g self) now
  | .throws e self now => .throws e (g self) now
  | .blocks => .blocks

/-- The value specialization `FutureWithForwarding<TFuture, T>` instantiated at
the one-element type, with the members of a void-specialization object. -/
def detail.FutureWithForwardingVoid.toUnit (self : detail.FutureWithForwardingVoid) :
    detail.FutureWithForwarding Unit :=
  { waitLimit := self.waitLimit, f_ := self.f_, p_ := self.p_ }

/-- What `dispatch(err)` is to leave in an unset producer: the forced error,
else the value of the wrapped result, else the error of the wrapped result. -/
def forwardedState {T : Type} (err : Option Exn) (outcome : Except Exn T) : SharedState T :=
  match err with
  | some e => .exception e
  | none =>
    match outcome with
    | .ok v => .value v
    | .error x => .exception x

/-- A deferred task that nobody runs: `wait_for` reports `deferred` at once. -/
def deferredTask : Future Nat :=
  { kind := .future, valid := true, deferred := true, readyAt := none,
    outcome := .ok 0, gets := 0 }

/-- A process whose one running executor polls with a slice of zero. -/
def zeroSliceWorld : World Nat String :=
  { executors := [⟨0, 0, [], [], [], false⟩], dflt := some 0, nextShared := 0 }

/-! ## Properties -/

/-! ### Lemmas on the primitives and on the worker loop -/

/-- A bounded wait on a completed result reports ready at once, whatever the
timeout. -/
theorem Future.wait_for_of_completed {α : Type} (f : Future α) (now : Nat)
    (o : Except Exn α) (hf : f.completedWith now o) (now' : Nat) (timeout : Int)
    (hle : now ≤ now') : f.wait_for now' timeout = (.ok .ready, now') := by
  obtain ⟨hv, hd, ⟨t, ht, htle⟩, _⟩ := hf
  have h1 : t ≤ now' + waitSpan timeout := by omega
  have h2 : max now' t = now' := by omega
  simp [Future.wait_for, hv, hd, ht, h1, h2]

/-- A bounded wait does not turn the clock back. -/
theorem Future.wait_for_now_le {α : Type} (f : Future α) (now : Nat) (timeout : Int) :
    now ≤ (f.wait_for now timeout).2 := by
  unfold Future.wait_for
  split
  · exact Nat.le_refl _
  · split
    · exact Nat.le_refl _
    · split
      · split
        · exact Nat.le_max_left _ _
        · exact Nat.le_add_right _ _
      · exact Nat.le_add_right _ _

/-- Retrieval does not turn the clock back. -/
theorem Future.get_now_le {α : Type} (f : Future α) (now : Nat)
    (r : Except Exn α) (f' : Future α) (t : Nat) (h : f.get now = some (r, f', t)) :
    now ≤ t := by
  unfold Future.get at h
  split at h
  · simp at h; omega
  · split at h
    · simp at h; omega
    · split at h
      · simp at h; omega
      · simp at h

/-- A result that a bounded wait reported ready can be retrieved without
blocking. -/
theorem Future.get_of_ready {α : Type} (f : Future α) (now : Nat) (timeout : Int)
    (h : (f.wait_for now timeout).1 = .ok .ready) (t : Nat) : (f.get t).isSome = true := by
  unfold Future.wait_for at h
  unfold Future.get
  split
  · rfl
  · rename_i hv
    rw [if_neg hv] at h
    split
    · rfl
    · rename_i hd
      rw [if_neg hd] at h
      cases hr : f.readyAt with
      | none => rw [hr] at h; simp at h
      | some r => rfl

/-- The probe leaves the operation as it was. -/
theorem Waitable.timedWait_op {TIn TOut : Type} (op : Waitable TIn TOut) (now : Nat)
    (timeout : Int) : (op.timedWait now timeout).2.1 = op := by
  cases op with
  | continuation c =>
    simp only [Waitable.timedWait, detail.FutureWithContinuation.timedWait]
    rcases c.f_.wait_for now timeout with ⟨r | st, t⟩ <;> rfl
  | chaining c =>
    simp only [Waitable.timedWait, detail.FutureWithChaining.timedWait]
    rcases c.f_.wait_for now timeout with ⟨r | st, t⟩ <;> rfl
  | forwarding c =>
    simp only [Waitable.timedWait, detail.FutureWithForwarding.timedWait]
    rcases c.f_.wait_for now timeout with ⟨r | st, t⟩ <;> rfl

/-- The probe does not turn the clock back. -/
theorem Waitable.timedWait_now {TIn TOut : Type} (op : Waitable TIn TOut) (now : Nat)
    (timeout : Int) : now ≤ (op.timedWait now timeout).2.2 := by
  cases op with
  | continuation c =>
    have h := Future.wait_for_now_le c.f_ now timeout
    simp only [Waitable.timedWait, detail.FutureWithContinuation.timedWait]
    rcases hw : c.f_.wait_for now timeout with ⟨r | st, t⟩ <;> rw [hw] at h <;> exact h
  | chaining c =>
    have h := Future.wait_for_now_le c.f_ now timeout
    simp only [Waitable.timedWait, detail.FutureWithChaining.timedWait]
    rcases hw : c.f_.wait_for now timeout with ⟨r | st, t⟩ <;> rw [hw] at h <;> exact h
  | forwarding c =>
    have h := Future.wait_for_now_le c.f_ now timeout
    simp only [Waitable.timedWait, detail.FutureWithForwarding.timedWait]
    rcases hw : c.f_.wait_for now timeout with ⟨r | st, t⟩ <;> rw [hw] at h <;> exact h

/-- A `dispatch` call that returns reports the operation's own producer, does
not turn the clock back, and a second stage it creates holds the same producer. -/
theorem Waitable.dispatch_spec {TIn TOut : Type} (budget : ChainBudget)
    (op : Waitable TIn TOut) (t : Nat) (elapsed : Int) (err : Option Exn)
    (d : Dispatched TOut) (t' : Nat)
    (h : op.dispatch budget t elapsed err = some (d, t')) :
    d.id = op.p_.id ∧ t ≤ t' ∧ ∀ fw, d.spawned = some fw → fw.p_.id = op.p_.id := by
  cases op with
  | continuation c =>
    rcases c with ⟨lim, f, ⟨pid, st⟩, cont, calls⟩
    cases err <;> cases st <;> cases hc : cont f <;>
      simp [Waitable.dispatch, detail.FutureWithContinuation.dispatch, promise.set_value,
        promise.set_exception, hc, Waitable.p_] at h ⊢ <;>
      (obtain ⟨rfl, rfl⟩ := h; simp)
  | chaining c =>
    rcases c with ⟨lim, f, ⟨pid, st⟩, cont, calls⟩
    cases err <;> cases st <;> cases hc : cont f <;>
      simp [Waitable.dispatch, detail.FutureWithChaining.dispatch, promise.set_value,
        promise.set_exception, hc, Waitable.p_] at h ⊢ <;>
      (obtain ⟨rfl, rfl⟩ := h; simp)
  | forwarding c =>
    rcases c with ⟨lim, f, ⟨pid, st⟩⟩
    cases err with
    | some e =>
      cases st <;>
        simp [Waitable.dispatch, detail.FutureWithForwarding.dispatch, promise.set_value,
          promise.set_exception, Waitable.p_] at h ⊢ <;>
        (obtain ⟨rfl, rfl⟩ := h; simp)
    | none =>
      cases hg : f.get t with
      | none => simp [Waitable.dispatch, detail.FutureWithForwarding.dispatch, hg] at h
      | some x =>
        obtain ⟨r, f', t2⟩ := x
        have hle := Future.get_now_le f t r f' t2 hg
        cases r <;> cases st <;>
          simp [Waitable.dispatch, detail.FutureWithForwarding.dispatch, promise.set_value,
            promise.set_exception, Waitable.p_, hg] at h ⊢ <;>
          (obtain ⟨rfl, rfl⟩ := h; simp [hle])

/-- A `dispatch` call with an error returns. -/
theorem Waitable.dispatch_error_returns {TIn TOut : Type} (budget : ChainBudget)
    (op : Waitable TIn TOut) (t : Nat) (elapsed : Int) (e : Exn) :
    (op.dispatch budget t elapsed (some e)).isSome = true := by
  cases op with
  | continuation c =>
    rcases c with ⟨lim, f, ⟨pid, st⟩, cont, calls⟩
    cases st <;>
      simp [Waitable.dispatch, detail.FutureWithContinuation.dispatch, promise.set_exception]
  | chaining c =>
    rcases c with ⟨lim, f, ⟨pid, st⟩, cont, calls⟩
    cases st <;>
      simp [Waitable.dispatch, detail.FutureWithChaining.dispatch, promise.set_exception]
  | forwarding c =>
    rcases c with ⟨lim, f, ⟨pid, st⟩⟩
    cases st <;>
      simp [Waitable.dispatch, detail.FutureWithForwarding.dispatch, promise.set_exception]

/-- A `dispatch` call with no error on an operation whose probe answered true
returns. -/
theorem Waitable.dispatch_ready_returns {TIn TOut : Type} (budget : ChainBudget)
    (op : Waitable TIn TOut) (now : Nat) (timeout : Int)
    (h : (op.timedWait now timeout).1 = .ok true) (t : Nat) (elapsed : Int) :
    (op.dispatch budget t elapsed none).isSome = true := by
  cases op with
  | continuation c =>
    rcases c with ⟨lim, f, ⟨pid, st⟩, cont, calls⟩
    cases st <;> cases hc : cont f <;>
      simp [Waitable.dispatch, detail.FutureWithContinuation.dispatch, promise.set_value,
        promise.set_exception, hc]
  | chaining c =>
    rcases c with ⟨lim, f, ⟨pid, st⟩, cont, calls⟩
    cases st <;> cases hc : cont f <;>
      simp [Waitable.dispatch, detail.FutureWithChaining.dispatch, promise.set_value,
        promise.set_exception, hc]
  | forwarding c =>
    rcases c with ⟨lim, f, ⟨pid, st⟩⟩
    have hr : (f.wait_for now timeout).1 = .ok .ready := by
      simp only [Waitable.timedWait, detail.FutureWithForwarding.timedWait] at h
      rcases hw : f.wait_for now timeout with ⟨r | s, t2⟩
      · rw [hw] at h; simp at h
      · rw [hw] at h; simp at h; simp [h]
    have hg := Future.get_of_ready f now timeout hr t
    cases hg2 : f.get t with
    | none => rw [hg2] at hg; simp at hg
    | some x =>
      obtain ⟨r, f', t2⟩ := x
      cases r <;> cases st <;>
        simp [Waitable.dispatch, detail.FutureWithForwarding.dispatch, promise.set_value,
          promise.set_exception, hg2]

/-- With an unset producer `dispatch(err)` stores `err`, invokes no continuation
and creates no second stage. -/
theorem Waitable.dispatch_error_eq {TIn TOut : Type} (budget : ChainBudget)
    (op : Waitable TIn TOut) (t : Nat) (elapsed : Int) (e : Exn)
    (hp : op.p_.state = .unset) :
    op.dispatch budget t elapsed (some e) =
      some (⟨op.p_.id, .exception e, op.calls, none, none⟩, t) := by
  cases op with
  | continuation c =>
    rcases c with ⟨lim, f, ⟨pid, st⟩, cont, calls⟩
    simp only [Waitable.p_] at hp
    subst hp
    simp [Waitable.dispatch, detail.FutureWithContinuation.dispatch, promise.set_exception,
      Waitable.p_, Waitable.calls]
  | chaining c =>
    rcases c with ⟨lim, f, ⟨pid, st⟩, cont, calls⟩
    simp only [Waitable.p_] at hp
    subst hp
    simp [Waitable.dispatch, detail.FutureWithChaining.dispatch, promise.set_exception,
      Waitable.p_, Waitable.calls]
  | forwarding c =>
    rcases c with ⟨lim, f, ⟨pid, st⟩⟩
    simp only [Waitable.p_] at hp
    subst hp
    simp [Waitable.dispatch, detail.FutureWithForwarding.dispatch, promise.set_exception,
      Waitable.p_, Waitable.calls]

/-- The probe of a direct-value operation on an input that never becomes
ready. -/
theorem Waitable.never_ready_continuation {TIn TOut : Type}
    (c : detail.FutureWithContinuation TIn TOut)
    (hv : c.f_.valid = true) (hn : c.f_.deferred = true ∨ c.f_.readyAt = none)
    (now : Nat) (q : Int) :
    ((Waitable.continuation c).timedWait now q).1 = .ok false := by
  rcases hn with hd | hr
  · simp [Waitable.timedWait, detail.FutureWithContinuation.timedWait, Future.wait_for, hv, hd]
  · cases hd : c.f_.deferred <;>
      simp [Waitable.timedWait, detail.FutureWithContinuation.timedWait, Future.wait_for,
        hv, hd, hr]

/-- The probe of a first-stage operation on an input that never becomes ready. -/
theorem Waitable.never_ready_chaining {TIn TOut : Type}
    (c : detail.FutureWithChaining TIn TOut)
    (hv : c.f_.valid = true) (hn : c.f_.deferred = true ∨ c.f_.readyAt = none)
    (now : Nat) (q : Int) :
    ((Waitable.chaining c).timedWait now q).1 = .ok false := by
  rcases hn with hd | hr
  · simp [Waitable.timedWait, detail.FutureWithChaining.timedWait, Future.wait_for, hv, hd]
  · cases hd : c.f_.deferred <;>
      simp [Waitable.timedWait, detail.FutureWithChaining.timedWait, Future.wait_for,
        hv, hd, hr]

/-- The probe of a direct-value operation on a completed input. -/
theorem Waitable.ready_continuation {TIn TOut : Type}
    (c : detail.FutureWithContinuation TIn TOut) (lo : Nat) (o : Except Exn TIn)
    (hf : c.f_.completedWith lo o) (now : Nat) (q : Int) (hlo : lo ≤ now) :
    (Waitable.continuation c).timedWait now q = (.ok true, Waitable.continuation c, now) := by
  simp [Waitable.timedWait, detail.FutureWithContinuation.timedWait,
    Future.wait_for_of_completed c.f_ lo o hf now q hlo]

/-- Nothing done leaves everything untouched. -/
theorem Executor.Untouched.refl {TIn TOut : Type} (id : Nat) (ex : Executor TIn TOut) :
    Executor.Untouched id ex ex :=
  ⟨rfl, rfl, Nat.le_refl _, rfl, rfl, rfl⟩

/-- Work on other producers composes. -/
theorem Executor.Untouched.trans {TIn TOut : Type} {id : Nat} {a b c : Executor TIn TOut}
    (h1 : Executor.Untouched id a b) (h2 : Executor.Untouched id b c) :
    Executor.Untouched id a c :=
  ⟨h2.q.trans h1.q, h2.hung.trans h1.hung, Nat.le_trans h1.now h2.now,
   h2.active.trans h1.active, h2.pending.trans h1.pending, h2.completions.trans h1.completions⟩

/-- The executor after a `complete()` call whose `dispatch` returned. -/
theorem Executor.complete_eq {TIn TOut : Type} (budget : ChainBudget) (ex : Executor TIn TOut)
    (w : WatchedOperation TIn TOut) (t : Nat) (err : Option Exn) (d : Dispatched TOut)
    (t' : Nat)
    (h : w.op.dispatch budget t ((t : Int) - (w.start : Int)) err = some (d, t')) :
    ex.complete budget w t err =
      { ex with
        now := t'
        completions := ex.completions ++ [⟨err, t', d⟩]
        pending := ex.pending ++
          (match d.spawned with
           | some fw => [⟨.forwarding fw, t'⟩]
           | none => []) } := by
  unfold Executor.complete
  rw [h]
  cases hs : d.spawned with
  | none => simp [hs]
  | some fw => simp [hs, Executor.watch]

/-- Completing an operation that holds another producer leaves `id` untouched. -/
theorem Executor.complete_untouched {TIn TOut : Type} (budget : ChainBudget) (id : Nat)
    (ex : Executor TIn TOut) (w : WatchedOperation TIn TOut) (t : Nat) (err : Option Exn)
    (hw : w.holds id = false) (ht : ex.now ≤ t)
    (hd : (w.op.dispatch budget t ((t : Int) - (w.start : Int)) err).isSome = true) :
    Executor.Untouched id ex (ex.complete budget w t err) := by
  cases hdd : w.op.dispatch budget t ((t : Int) - (w.start : Int)) err with
  | none => rw [hdd] at hd; simp at hd
  | some x =>
    obtain ⟨d, t'⟩ := x
    obtain ⟨h1, h2, h3⟩ := Waitable.dispatch_spec budget w.op t _ err d t' hdd
    have hne : ¬ w.op.p_.id = id := by
      simpa [WatchedOperation.holds] using hw
    rw [Executor.complete_eq budget ex w t err d t' hdd]
    refine ⟨rfl, rfl, Nat.le_trans ht h2, rfl, ?_, ?_⟩
    · cases hs : d.spawned with
      | none => simp
      | some fw =>
        have h4 : WatchedOperation.holds id
            (⟨.forwarding fw, t'⟩ : WatchedOperation TIn TOut) = false := by
          have h5 : ¬ fw.p_.id = id := by rw [h3 fw hs]; exact hne
          simpa [WatchedOperation.holds, Waitable.p_] using h5
        simp [List.filter_append, h4]
    · simp [Executor.completionsOf, List.filter_append, h1, hne]

/-- Probing an operation that holds another producer leaves `id` untouched. -/
theorem Executor.step_untouched {TIn TOut : Type} (budget : ChainBudget) (id : Nat)
    (ex : Executor TIn TOut) (w : WatchedOperation TIn TOut) (hw : w.holds id = false) :
    Executor.Untouched id ex (ex.step budget w) := by
  unfold Executor.step
  split
  · exact Executor.Untouched.refl id ex
  · have hop := Waitable.timedWait_op w.op ex.now ex.q
    have hnow := Waitable.timedWait_now w.op ex.now ex.q
    rcases htw : w.op.timedWait ex.now ex.q with ⟨r, op, t⟩
    rw [htw] at hop hnow
    simp only at hop hnow
    subst hop
    have hw2 : WatchedOperation.holds id (⟨w.op, w.start⟩ : WatchedOperation TIn TOut) = false := hw
    rcases r with e | b
    · exact Executor.complete_untouched budget id ex _ t (some e) hw2 hnow
        (Waitable.dispatch_error_returns budget _ _ _ _)
    · cases b with
      | true =>
        have h1 : (w.op.timedWait ex.now ex.q).1 = .ok true := by rw [htw]
        exact Executor.complete_untouched budget id ex _ t none hw2 hnow
          (Waitable.dispatch_ready_returns budget _ _ _ h1 _ _)
      | false =>
        have hpe : ex.now ≤ probeEnd ex.now t := Nat.le_trans hnow (Nat.le_max_left _ _)
        simp only
        split
        · exact Executor.complete_untouched budget id ex _ _ _ hw2 hpe
            (Waitable.dispatch_error_returns budget _ _ _ _)
        · refine ⟨rfl, rfl, hpe, ?_, rfl, rfl⟩
          have : WatchedOperation.holds id (⟨w.op, w.start⟩ : WatchedOperation TIn TOut) = false := hw
          simp [List.filter_append, this]

/-- Probing a list of operations that hold other producers leaves `id`
untouched. -/
theorem Executor.foldl_step_untouched {TIn TOut : Type} (budget : ChainBudget) (id : Nat)
    (l : List (WatchedOperation TIn TOut)) (hl : ∀ w ∈ l, w.holds id = false)
    (ex : Executor TIn TOut) :
    Executor.Untouched id ex (l.foldl (Executor.step budget) ex) := by
  induction l generalizing ex with
  | nil => exact Executor.Untouched.refl id ex
  | cons w ws ih =>
    simp only [List.foldl_cons]
    exact (Executor.step_untouched budget id ex w (hl w (List.mem_cons_self _ _))).trans
      (ih (fun x hx => hl x (List.mem_cons_of_mem _ hx)) _)

/-- A round of the worker on an executor in which no operation holds `id`
leaves `id` untouched. -/
theorem Executor.poll_untouched {TIn TOut : Type} (budget : ChainBudget) (id : Nat)
    (ex : Executor TIn TOut)
    (ha : ex.active.filter (WatchedOperation.holds id) = [])
    (hp : ex.pending.filter (WatchedOperation.holds id) = []) :
    Executor.Untouched id ex (ex.poll budget) := by
  unfold Executor.poll
  split
  · exact Executor.Untouched.refl id ex
  · split
    · exact ⟨rfl, rfl, Nat.le_add_right _ _, rfl, rfl, rfl⟩
    · have h0 : Executor.Untouched id ex { ex with active := [], pending := [] } :=
        ⟨rfl, rfl, Nat.le_refl _, by simp [ha], by simp [hp], rfl⟩
      refine h0.trans (Executor.foldl_step_untouched budget id _ ?_ _)
      intro w hw
      rcases List.mem_append.mp hw with h | h
      · have := List.filter_eq_nil_iff.mp ha w h
        simpa using this
      · have := List.filter_eq_nil_iff.mp hp w h
        simpa using this

/-- Any number of rounds on an executor in which no operation holds `id`
leaves `id` untouched. -/
theorem Executor.run_untouched {TIn TOut : Type} (budget : ChainBudget) (id : Nat) (n : Nat)
    (ex : Executor TIn TOut)
    (ha : ex.active.filter (WatchedOperation.holds id) = [])
    (hp : ex.pending.filter (WatchedOperation.holds id) = []) :
    Executor.Untouched id ex (ex.run budget n) := by
  induction n generalizing ex with
  | zero => exact Executor.Untouched.refl id ex
  | succ n ih =>
    have h1 := Executor.poll_untouched budget id ex ha hp
    simp only [Executor.run]
    exact h1.trans (ih _ (h1.active.trans ha) (h1.pending.trans hp))

/-- A round of the worker on a running executor in which exactly the operation
`w0` holds `id`: the operations before `w0` are probed, then `w0`, then the
rest, and only the probe of `w0` touches `id`. -/
theorem Executor.poll_single {TIn TOut : Type} (budget : ChainBudget) (id : Nat)
    (ex : Executor TIn TOut) (w0 : WatchedOperation TIn TOut)
    (hrun : ex.hung = false)
    (hs : (ex.active ++ ex.pending).filter (WatchedOperation.holds id) = [w0]) :
    ∃ ex1, Executor.Untouched id { ex with active := [], pending := [] } ex1 ∧
      Executor.Untouched id (ex1.step budget w0) (ex.poll budget) := by
  obtain ⟨l1, l2, hl, h1, _, h2⟩ := List.filter_eq_cons_iff.mp hs
  have hne : (ex.active ++ ex.pending).isEmpty = false := by
    rw [hl]; cases l1 <;> rfl
  refine ⟨l1.foldl (Executor.step budget) { ex with active := [], pending := [] }, ?_, ?_⟩
  · exact Executor.foldl_step_untouched budget id l1 (fun w hw => by simpa using h1 w hw) _
  · have hp : ex.poll budget =
        l2.foldl (Executor.step budget)
          ((l1.foldl (Executor.step budget) { ex with active := [], pending := [] }).step
            budget w0) := by
      simp only [Executor.poll, hrun, hne, hl, List.foldl_append, List.foldl_cons]
      simp
    rw [hp]
    refine Executor.foldl_step_untouched budget id l2 ?_ _
    intro w hw
    have := List.filter_eq_nil_iff.mp h2 w hw
    simpa using this

/-- The worker's step on an operation whose probe answers false. -/
theorem Executor.step_not_ready {TIn TOut : Type} (budget : ChainBudget)
    (ex : Executor TIn TOut) (op : Waitable TIn TOut) (start t0 : Nat)
    (hrun : ex.hung = false)
    (hw : op.timedWait ex.now ex.q = (.ok false, op, t0)) :
    ex.step budget ⟨op, start⟩ =
      if op.waitLimit < ((probeEnd ex.now t0 : Nat) : Int) - (start : Int) then
        ex.complete budget ⟨op, start⟩ (probeEnd ex.now t0)
          (some .WaitableTimedOutException)
      else { ex with now := probeEnd ex.now t0, active := ex.active ++ [⟨op, start⟩] } := by
  simp only [Executor.step, hrun, hw]
  simp

/-- The worker's step on an operation whose probe answers true. -/
theorem Executor.step_ready {TIn TOut : Type} (budget : ChainBudget)
    (ex : Executor TIn TOut) (op : Waitable TIn TOut) (start : Nat) (t : Nat)
    (hrun : ex.hung = false)
    (hw : op.timedWait ex.now ex.q = (.ok true, op, t)) :
    ex.step budget ⟨op, start⟩ = ex.complete budget ⟨op, start⟩ t none := by
  simp only [Executor.step, hrun, hw]
  simp

/-- The settling calls are the `complete()` calls for `id` that left it set. -/
theorem Executor.settled_eq {TIn TOut : Type} (ex : Executor TIn TOut) (id : Nat) :
    ex.settled id = (ex.completionsOf id).filter (fun c => c.result.state.isSet) := by
  simp [Executor.settled, Executor.completionsOf, List.filter_filter, Bool.and_comm]

/-- What a reader observes when no call, or exactly one settling call, has
been made for `id`. -/
theorem Executor.resultState_of_completions {TIn TOut : Type} (ex : Executor TIn TOut)
    (id : Nat) :
    (ex.completionsOf id = [] → ex.resultState id = .unset) ∧
    (∀ c, ex.completionsOf id = [c] → c.result.state.isSet = true →
      ex.resultState id = c.result.state ∧ (ex.settled id).length = 1) := by
  constructor
  · intro h
    simp [Executor.resultState, Executor.settled_eq, h]
  · intro c h hc
    simp [Executor.resultState, Executor.settled_eq, h, hc]

/-- A shared state that does not occur in the executor has no operation and no
record. -/
theorem Executor.not_mentioned {TIn TOut : Type} (ex : Executor TIn TOut) (id : Nat)
    (h : ex.mentions id = false) :
    ex.active.filter (WatchedOperation.holds id) = [] ∧
    ex.pending.filter (WatchedOperation.holds id) = [] ∧
    ex.completionsOf id = [] := by
  simp only [Executor.mentions, Bool.or_eq_false_iff, List.any_eq_false, List.mem_append] at h
  obtain ⟨h1, h2⟩ := h
  refine ⟨?_, ?_, ?_⟩
  · exact List.filter_eq_nil_iff.mpr (fun a ha => h1 a (Or.inl ha))
  · exact List.filter_eq_nil_iff.mpr (fun a ha => h1 a (Or.inr ha))
  · exact List.filter_eq_nil_iff.mpr (fun a ha => h2 a ha)

/-- After registering an operation on a fresh producer, exactly this operation
holds it. -/
theorem Executor.watch_fresh {TIn TOut : Type} (ex : Executor TIn TOut) (id : Nat)
    (op : Waitable TIn TOut) (h : ex.mentions id = false) (hid : op.p_.id = id) :
    ((ex.watch op).active ++ (ex.watch op).pending).filter (WatchedOperation.holds id) =
      [⟨op, ex.now⟩] ∧
    (ex.watch op).completionsOf id = [] := by
  obtain ⟨h1, h2, h3⟩ := Executor.not_mentioned ex id h
  have hh : WatchedOperation.holds id (⟨op, ex.now⟩ : WatchedOperation TIn TOut) = true := by
    simp [WatchedOperation.holds, hid]
  refine ⟨?_, h3⟩
  simp [Executor.watch, List.filter_append, h1, h2, hh]

/-- Registration through a pointer to an existing executor succeeds and
changes that executor by `Executor.watch`. -/
theorem World.executor_watch {TIn TOut : Type} (w : World TIn TOut) (executor : Option Nat)
    (ex : Executor TIn TOut) (op : Waitable TIn TOut) (hex : w.executor executor = some ex) :
    ∃ w', w.watch executor op = some w' ∧ w'.executor executor = some (ex.watch op) ∧
      w'.nextShared = w.nextShared ∧ w'.dflt = w.dflt := by
  cases executor with
  | none => simp [World.executor] at hex
  | some i =>
    simp only [World.executor] at hex
    have hlt : i < w.executors.length := by
      rcases Nat.lt_or_ge i w.executors.length with h | h
      · exact h
      · rw [List.get?_eq_none.mpr h] at hex; cases hex
    refine ⟨{ w with executors := w.executors.set i (ex.watch op) }, ?_, ?_, rfl, rfl⟩
    · simp only [World.watch, hex]
    · simp [World.executor, hlt]

/-- An operation with an unset producer whose probe always answers false is
completed by exactly one call, with `WaitableTimedOutException`, after its
deadline, whatever the polling slice; `m` bounds what is left of its time
limit. -/
theorem Executor.run_times_out {TIn TOut : Type} (budget : ChainBudget) (id : Nat)
    (op : Waitable TIn TOut) (start : Nat) (base : List (Completion TOut))
    (hid : op.p_.id = id) (hp : op.p_.state = .unset)
    (hnever : ∀ now q, (op.timedWait now q).1 = .ok false)
    (m : Nat) (ex : Executor TIn TOut)
    (hm : (op.waitLimit - ((ex.now : Int) - (start : Int))).toNat ≤ m)
    (hrun : ex.hung = false)
    (hs : (ex.active ++ ex.pending).filter (WatchedOperation.holds id) = [⟨op, start⟩])
    (hc : ex.completionsOf id = base) :
    ∃ (n0 T : Nat), (start : Int) + op.waitLimit < (T : Int) ∧ 1 ≤ n0 ∧
      (∀ n, n0 ≤ n → (ex.run budget n).completionsOf id =
        base ++ [⟨some .WaitableTimedOutException, T,
          ⟨id, .exception .WaitableTimedOutException, op.calls, none, none⟩⟩]) ∧
      (∀ n, n < n0 → (ex.run budget n).completionsOf id = base) := by
  induction m using Nat.strong_induction_on generalizing ex with
  | _ m ih =>
    obtain ⟨ex1, hu1, hu2⟩ := Executor.poll_single budget id ex ⟨op, start⟩ hrun hs
    have hrun1 : ex1.hung = false := hu1.hung.trans hrun
    have hnow1 : ex.now ≤ ex1.now := hu1.now
    have ha1 : ex1.active.filter (WatchedOperation.holds id) = [] := hu1.active
    have hp1 : ex1.pending.filter (WatchedOperation.holds id) = [] := hu1.pending
    have hc1 : ex1.completionsOf id = base := hu1.completions.trans hc
    have htw : op.timedWait ex1.now ex1.q =
        (.ok false, op, (op.timedWait ex1.now ex1.q).2.2) := by
      have h1 := hnever ex1.now ex1.q
      have h2 := Waitable.timedWait_op op ex1.now ex1.q
      rcases hx : op.timedWait ex1.now ex1.q with ⟨r, op', t⟩
      rw [hx] at h1 h2
      simp only at h1 h2
      rw [h1, h2]
    have hstep := Executor.step_not_ready budget ex1 op start _ hrun1 htw
    have hspan : ex1.now + 1 ≤ probeEnd ex1.now (op.timedWait ex1.now ex1.q).2.2 :=
      Nat.le_max_right _ _
    have hholds : WatchedOperation.holds id (⟨op, start⟩ : WatchedOperation TIn TOut) = true := by
      simp [WatchedOperation.holds, hid]
    by_cases hlt : op.waitLimit <
        ((probeEnd ex1.now (op.timedWait ex1.now ex1.q).2.2 : Nat) : Int) - (start : Int)
    · rw [if_pos hlt] at hstep
      have hd := Waitable.dispatch_error_eq budget op
        (probeEnd ex1.now (op.timedWait ex1.now ex1.q).2.2)
        (((probeEnd ex1.now (op.timedWait ex1.now ex1.q).2.2 : Nat) : Int) - (start : Int))
        .WaitableTimedOutException hp
      rw [Executor.complete_eq budget ex1 ⟨op, start⟩ _ _ _ _ hd] at hstep
      have hA : (ex.poll budget).active.filter (WatchedOperation.holds id) = [] := by
        rw [hu2.active, hstep]; exact ha1
      have hP : (ex.poll budget).pending.filter (WatchedOperation.holds id) = [] := by
        rw [hu2.pending, hstep]; simpa using hp1
      have hC : (ex.poll budget).completionsOf id =
          base ++ [⟨some .WaitableTimedOutException,
            probeEnd ex1.now (op.timedWait ex1.now ex1.q).2.2,
            ⟨id, .exception .WaitableTimedOutException, op.calls, none, none⟩⟩] := by
        rw [hu2.completions, hstep]
        simp only [Executor.completionsOf] at hc1 ⊢
        simp [List.filter_append, hc1, hid]
      refine ⟨1, probeEnd ex1.now (op.timedWait ex1.now ex1.q).2.2, by omega,
        Nat.le_refl _, ?_, ?_⟩
      · intro n hn
        obtain ⟨k, rfl⟩ : ∃ k, n = k + 1 := ⟨n - 1, by omega⟩
        simp only [Executor.run]
        rw [(Executor.run_untouched budget id k _ hA hP).completions, hC]
      · intro n hn
        have : n = 0 := by omega
        subst this
        exact hc
    · rw [if_neg hlt] at hstep
      have hA : (ex.poll budget).active.filter (WatchedOperation.holds id) = [⟨op, start⟩] := by
        rw [hu2.active, hstep]
        simp [List.filter_append, ha1, hholds]
      have hP : (ex.poll budget).pending.filter (WatchedOperation.holds id) = [] := by
        rw [hu2.pending, hstep]; exact hp1
      have hC : (ex.poll budget).completionsOf id = base := by
        rw [hu2.completions, hstep]; exact hc1
      have hN : probeEnd ex1.now (op.timedWait ex1.now ex1.q).2.2 ≤ (ex.poll budget).now := by
        have := hu2.now
        rw [hstep] at this
        exact this
      have hH : (ex.poll budget).hung = false := by
        rw [hu2.hung, hstep]; exact hrun1
      have hS : ((ex.poll budget).active ++ (ex.poll budget).pending).filter
          (WatchedOperation.holds id) = [⟨op, start⟩] := by
        rw [List.filter_append, hA, hP]; rfl
      have hm' : (op.waitLimit - (((ex.poll budget).now : Int) - (start : Int))).toNat ≤ m - 1 := by
        omega
      have hmpos : m - 1 < m := by omega
      obtain ⟨n0, T, hT, hn0, h1, h2⟩ :=
        ih (m - 1) hmpos (ex.poll budget) hm' hH hS hC
      refine ⟨n0 + 1, T, hT, by omega, ?_, ?_⟩
      · intro n hn
        obtain ⟨k, rfl⟩ : ∃ k, n = k + 1 := ⟨n - 1, by omega⟩
        simp only [Executor.run]
        exact h1 k (by omega)
      · intro n hn
        cases n with
        | zero => exact hc
        | succ k =>
          simp only [Executor.run]
          exact h2 k (by omega)

/-- An operation with a fresh unset producer whose probe always answers false,
registered on a running executor, times out. -/
theorem World.timesOut_of_watch {TIn TOut : Type} (budget : ChainBudget) (w' : World TIn TOut)
    (executor : Option Nat) (ex : Executor TIn TOut) (op : Waitable TIn TOut) (id : Nat)
    (hw : w'.executor executor = some (ex.watch op))
    (hrun : ex.hung = false) (hfresh : ex.mentions id = false)
    (hid : op.p_.id = id) (hp : op.p_.state = .unset) (hcalls : op.calls = 0)
    (hnever : ∀ now q, (op.timedWait now q).1 = .ok false) :
    w'.timesOut budget executor id ex.now op.waitLimit := by
  obtain ⟨hs, hc⟩ := Executor.watch_fresh ex id op hfresh hid
  obtain ⟨n0, T, hT, hn0, h1, h2⟩ :=
    Executor.run_times_out budget id op ex.now [] hid hp hnever _ (ex.watch op)
      (Nat.le_refl _) hrun hs hc
  refine ⟨ex.watch op, hw, n0, T, hn0, hT, ?_, ?_⟩
  · intro n hn
    have h := h1 n hn
    rw [hcalls] at h
    simp only [List.nil_append] at h
    have h3 := (Executor.resultState_of_completions ((ex.watch op).run budget n) id).2 _ h rfl
    exact ⟨h, h3.1, h3.2⟩
  · intro n hn
    have h := h2 n hn
    exact ⟨h, (Executor.resultState_of_completions ((ex.watch op).run budget n) id).1 h⟩

/-- A round of the worker completes, with no error, an operation whose probe
answers true at once and whose `dispatch` returns `d`. -/
theorem Executor.poll_completes {TIn TOut : Type} (budget : ChainBudget) (id : Nat)
    (op : Waitable TIn TOut) (start lo : Nat) (base : List (Completion TOut))
    (d : Int → Dispatched TOut)
    (hd : ∀ t el, op.dispatch budget t el none = some (d el, t))
    (hdid : ∀ el, (d el).id = id)
    (hready : ∀ now q, lo ≤ now → op.timedWait now q = (.ok true, op, now))
    (ex : Executor TIn TOut) (hlo : lo ≤ ex.now) (hrun : ex.hung = false)
    (hs : (ex.active ++ ex.pending).filter (WatchedOperation.holds id) = [⟨op, start⟩])
    (hc : ex.completionsOf id = base) :
    ∃ T : Nat, ex.now ≤ T ∧ (ex.poll budget).hung = false ∧ (ex.poll budget).q = ex.q ∧
      T ≤ (ex.poll budget).now ∧
      (ex.poll budget).active.filter (WatchedOperation.holds id) = [] ∧
      (ex.poll budget).pending.filter (WatchedOperation.holds id) =
        (match (d ((T : Int) - (start : Int))).spawned with
         | some fw => [⟨.forwarding fw, T⟩]
         | none => []) ∧
      (ex.poll budget).completionsOf id = base ++ [⟨none, T, d ((T : Int) - (start : Int))⟩] := by
  obtain ⟨ex1, hu1, hu2⟩ := Executor.poll_single budget id ex ⟨op, start⟩ hrun hs
  have hq1 : ex1.q = ex.q := hu1.q
  have hrun1 : ex1.hung = false := hu1.hung.trans hrun
  have hnow1 : ex.now ≤ ex1.now := hu1.now
  have ha1 : ex1.active.filter (WatchedOperation.holds id) = [] := hu1.active
  have hp1 : ex1.pending.filter (WatchedOperation.holds id) = [] := hu1.pending
  have hc1 : ex1.completionsOf id = base := hu1.completions.trans hc
  have hstep := Executor.step_ready budget ex1 op start ex1.now hrun1
    (hready _ _ (Nat.le_trans hlo hnow1))
  rw [Executor.complete_eq budget ex1 ⟨op, start⟩ _ _ _ _ (hd _ _)] at hstep
  refine ⟨ex1.now, hnow1, ?_, ?_, ?_, ?_, ?_, ?_⟩
  · rw [hu2.hung, hstep]; exact hrun1
  · rw [hu2.q, hstep]; exact hq1
  · have := hu2.now
    rw [hstep] at this
    exact this
  · rw [hu2.active, hstep]; exact ha1
  · rw [hu2.pending, hstep]
    simp only [List.filter_append, hp1, List.nil_append]
    cases hsp : (d ((ex1.now : Int) - (start : Int))).spawned with
    | none => simp
    | some fw =>
      obtain ⟨h1, _, h3⟩ := Waitable.dispatch_spec budget op ex1.now _ none _ _ (hd ex1.now _)
      have h4 : fw.p_.id = id := by
        rw [h3 fw hsp, ← h1]; exact hdid _
      simp [WatchedOperation.holds, Waitable.p_, h4]
  · rw [hu2.completions, hstep]
    simp only [Executor.completionsOf] at hc1 ⊢
    simp [List.filter_append, hc1, hdid]

/-- A type that is not an instance of `c` differs from every `c<X>`. -/
theorem Ty.inst1_ne_of_templateOf (c : Template) (X R : Ty) (h : R.templateOf ≠ some c) :
    Ty.inst1 c X ≠ R := by
  intro hX
  apply h
  rw [← hX]
  rfl

/-- The two return-type aliases exclude each other. -/
theorem cont_returns_exclusive (tr : typetraits) (TFuture : Template) (TIn : Ty) (F : TFunc) :
    ((cont_returns_value_t tr TFuture TIn F).isSome = true →
      cont_returns_future_t tr TFuture TIn F = none) ∧
    ((cont_returns_future_t tr TFuture TIn F).isSome = true →
      cont_returns_value_t tr TFuture TIn F = none) := by
  unfold cont_returns_value_t cont_returns_future_t
  cases result_of F (Ty.inst1 TFuture TIn) with
  | none => simp
  | some R =>
    cases is_res_encapsulated_in_future tr TFuture TIn F with
    | none => simp
    | some enc =>
      cases enc <;> cases tr.is_template R <;> simp

/-- In a well-formed process state the next shared state is fresh in every
executor. -/
theorem World.wf_fresh {TIn TOut : Type} (w : World TIn TOut) (executor : Option Nat)
    (ex : Executor TIn TOut) (hwf : w.wf) (hex : w.executor executor = some ex) :
    ex.mentions w.nextShared = false := by
  cases executor with
  | none => simp [World.executor] at hex
  | some i =>
    simp only [World.executor] at hex
    exact hwf ex (List.get?_mem hex) _ (Nat.le_refl _)

/-- A shared state with no operation and no record is not mentioned. -/
theorem Executor.mentions_of_filters {TIn TOut : Type} (ex : Executor TIn TOut) (id : Nat)
    (ha : ex.active.filter (WatchedOperation.holds id) = [])
    (hp : ex.pending.filter (WatchedOperation.holds id) = [])
    (hc : ex.completionsOf id = []) : ex.mentions id = false := by
  simp only [Executor.mentions, Bool.or_eq_false_iff, List.any_eq_false, List.mem_append]
  constructor
  · intro x hx
    rcases hx with h | h
    · exact List.filter_eq_nil_iff.mp ha x h
    · exact List.filter_eq_nil_iff.mp hp x h
  · intro x hx
    exact List.filter_eq_nil_iff.mp hc x hx

/-- The worker does not make up shared states: what an executor does not
mention before a number of rounds it does not mention after them. -/
theorem Executor.run_mentions {TIn TOut : Type} (budget : ChainBudget) (n : Nat)
    (ex : Executor TIn TOut) (id : Nat) (h : ex.mentions id = false) :
    (ex.run budget n).mentions id = false := by
  obtain ⟨ha, hp, hc⟩ := Executor.not_mentioned ex id h
  have hU := Executor.run_untouched budget id n ex ha hp
  exact Executor.mentions_of_filters _ id (hU.active.trans ha) (hU.pending.trans hp)
    (hU.completions.trans hc)

/-- Registering an operation on the next shared state and advancing the
allocation counter keeps the process state well-formed. -/
theorem World.watch_wf {TIn TOut : Type} (w w' : World TIn TOut) (executor : Option Nat)
    (op : Waitable TIn TOut) (hwf : w.wf) (hid : op.p_.id = w.nextShared)
    (hw : ({ w with nextShared := w.nextShared + 1 } : World TIn TOut).watch executor op =
      some w') : w'.wf := by
  cases executor with
  | none => simp [World.watch] at hw
  | some i =>
    simp only [World.watch] at hw
    cases hg : w.executors.get? i with
    | none => rw [hg] at hw; simp at hw
    | some ex0 =>
      rw [hg] at hw
      simp only [Option.some.injEq] at hw
      subst hw
      intro ex hex id hle
      simp only at hex hle
      rcases List.mem_or_eq_of_mem_set hex with h | h
      · exact hwf ex h id (by omega)
      · subst h
        have h0 := hwf ex0 (List.get?_mem hg) id (by omega)
        obtain ⟨ha, hp, hc⟩ := Executor.not_mentioned ex0 id h0
        refine Executor.mentions_of_filters _ id ha ?_ hc
        have hne : ¬ op.p_.id = id := by omega
        simp [Executor.watch, List.filter_append, hp, WatchedOperation.holds, hne]

/-- Both full overloads of `then` keep the process state well-formed. -/
theorem then_wf {TIn TOut : Type} (w w' : World TIn TOut) (executor : Option Nat)
    (timeLimit : Int) (f : Future TIn) (cont : Future TIn → Except Exn TOut)
    (contF : Future TIn → Except Exn (Future TOut)) (result : Result) (hwf : w.wf) :
    (then_value w executor timeLimit f cont = some (w', result) → w'.wf) ∧
    (then_future w executor timeLimit f contF = some (w', result) → w'.wf) := by
  constructor
  · intro h
    simp only [then_value] at h
    cases hw : ({ w with nextShared := w.nextShared + 1 } : World TIn TOut).watch executor
        (.continuation ⟨timeLimit, f, ⟨w.nextShared, .unset⟩, cont, 0⟩) with
    | none => rw [hw] at h; simp at h
    | some w2 =>
      rw [hw] at h
      simp only [Option.some.injEq, Prod.mk.injEq] at h
      rw [← h.1]
      exact World.watch_wf w w2 executor
        (.continuation ⟨timeLimit, f, ⟨w.nextShared, .unset⟩, cont, 0⟩) hwf rfl hw
  · intro h
    simp only [then_future] at h
    cases hw : ({ w with nextShared := w.nextShared + 1 } : World TIn TOut).watch executor
        (.chaining ⟨timeLimit, f, ⟨w.nextShared, .unset⟩, contF, 0⟩) with
    | none => rw [hw] at h; simp at h
    | some w2 =>
      rw [hw] at h
      simp only [Option.some.injEq, Prod.mk.injEq] at h
      rw [← h.1]
      exact World.watch_wf w w2 executor
        (.chaining ⟨timeLimit, f, ⟨w.nextShared, .unset⟩, contF, 0⟩) hwf rfl hw

/-- The process state of the examples is well-formed. -/
theorem freshWorld_wf : freshWorld.wf := by
  intro ex hex id _
  simp only [freshWorld, List.mem_singleton] at hex
  subst hex
  rfl

/-! ### `then`: results of the direct-value and of the flatten form -/

/-- C1. Direct-value form: for every ready input `f` (holding a value `v`) and
every continuation `g` whose return type `R` is not an instance of
`std::future` or `std::shared_future`, the direct-value overload is enabled
with return type `TFuture<R>` for `TFuture` either of the two, and
`then(executor, timeLimit, f, g)` on a running executor (in a well-formed
process state) returns a result of the kind of the input that is unset at
first and, from the first round of the worker on, holds the value `g` returns
when applied to the ready input. -/
theorem direct_value_resolves {TIn TOut : Type} (budget : ChainBudget) (w : World TIn TOut)
    (executor : Option Nat) (ex : Executor TIn TOut) (timeLimit : Int) (f : Future TIn)
    (v : TIn) (g : Future TIn → Except Exn TOut) (r : TOut)
    (tr : typetraits) (TFuture : Template) (TInTy : Ty) (F : TFunc) (R : Ty)
    (hwf : w.wf) (hex : w.executor executor = some ex) (hrun : ex.hung = false)
    (hf : f.completedWith ex.now (.ok v)) (hg : g f = .ok r)
    (hR : result_of F (Ty.inst1 TFuture TInTy) = some R)
    (hT : TFuture = .future ∨ TFuture = .shared_future)
    (hplain : R.templateOf ≠ some .future ∧ R.templateOf ≠ some .shared_future) :
    cont_returns_value_t tr TFuture TInTy F = some (Ty.inst1 TFuture R) ∧
    ∃ w', then_value w executor timeLimit f g = some (w', ⟨f.kind, w.nextShared⟩) ∧
      w'.observe budget executor 0 ⟨f.kind, w.nextShared⟩ = some .unset ∧
      ∀ n, 1 ≤ n → w'.observe budget executor n ⟨f.kind, w.nextShared⟩ = some (.value r) := by
  have hfresh := World.wf_fresh w executor ex hwf hex
  constructor
  · have hne : Ty.inst1 TFuture (tr.nth_template_param0 R) ≠ R := by
      rcases hT with h | h
      · subst h; exact Ty.inst1_ne_of_templateOf _ _ _ hplain.1
      · subst h; exact Ty.inst1_ne_of_templateOf _ _ _ hplain.2
    simp [cont_returns_value_t, is_res_encapsulated_in_future, hR, hne]
  · obtain ⟨w', hw, hex', _, _⟩ :=
      World.executor_watch { w with nextShared := w.nextShared + 1 } executor ex
        (.continuation ⟨timeLimit, f, ⟨w.nextShared, .unset⟩, g, 0⟩) hex
    refine ⟨w', ?_, ?_, ?_⟩
    · simp only [then_value, hw]
    · obtain ⟨_, hc⟩ := Executor.watch_fresh ex w.nextShared
        (.continuation ⟨timeLimit, f, ⟨w.nextShared, .unset⟩, g, 0⟩) hfresh rfl
      simp only [World.observe, hex', Option.map_some', Executor.run]
      rw [(Executor.resultState_of_completions _ _).1 hc]
    · intro n hn
      obtain ⟨hs, hc⟩ := Executor.watch_fresh ex w.nextShared
        (.continuation ⟨timeLimit, f, ⟨w.nextShared, .unset⟩, g, 0⟩) hfresh rfl
      obtain ⟨T, _, _, _, _, hA, hP, hC⟩ :=
        Executor.poll_completes budget w.nextShared
          (.continuation ⟨timeLimit, f, ⟨w.nextShared, .unset⟩, g, 0⟩) ex.now ex.now []
          (fun _ => ⟨w.nextShared, .value r, 1, none, none⟩)
          (fun t el => by
            simp [Waitable.dispatch, detail.FutureWithContinuation.dispatch, hg,
              promise.set_value])
          (fun _ => rfl)
          (fun now q hlo => Waitable.ready_continuation _ ex.now (.ok v) hf now q hlo)
          (ex.watch (.continuation ⟨timeLimit, f, ⟨w.nextShared, .unset⟩, g, 0⟩))
          (Nat.le_refl _) hrun hs hc
      obtain ⟨k, rfl⟩ : ∃ k, n = k + 1 := ⟨n - 1, by omega⟩
      have hU := Executor.run_untouched budget w.nextShared k _ hA hP
      have hfin := hU.completions.trans hC
      simp only [World.observe, hex', Option.map_some', Executor.run]
      rw [((Executor.resultState_of_completions _ _).2 _ hfin rfl).1]

/-- Witness for C1: the first example, `then(getValueAsync(1821), f ->
to_string(f.get()))` on the default executor, resolves to "1821". -/
theorem direct_value_resolves_witness :
    to_string_cont (ready .future 0 1821) = .ok "1821" ∧
    ∃ w', then_value freshWorld (some 0) 50000 (ready .future 0 1821) to_string_cont =
        some (w', ⟨.future, 0⟩) ∧
      w'.observe .remaining (some 0) 1 ⟨.future, 0⟩ = some (.value "1821") :=
  ⟨rfl,
   match (direct_value_resolves .remaining freshWorld (some 0) ⟨10, 0, [], [], [], false⟩
      50000 (ready .future 0 1821) 1821 to_string_cont "1821"
      typetraits.std .future Ty.int ⟨Ty.inst1 .future Ty.int, Ty.string⟩ Ty.string
      freshWorld_wf rfl rfl ⟨rfl, rfl, ⟨0, rfl, Nat.le_refl _⟩, rfl⟩ rfl (by decide)
      (Or.inl rfl) ⟨by decide, by decide⟩).2 with
   | ⟨w', h1, _, h3⟩ => ⟨w', h1, h3 1 (Nat.le_refl _)⟩⟩

/-- C3. Timeout: for every operation created by `then(executor, timeLimit, f,
cont)`, in the direct-value and in the flatten form, on a running executor
with any polling slice (in a well-formed process state), whose valid input `f`
never becomes ready (a deferred task, which no bounded wait runs, or a result
that never arrives): the resulting future is completed exactly once, at a
clock reading later than the registration time plus `timeLimit`, with
`WaitableTimedOutException`; before that it is unset, so it never holds a
value; the one `complete()` call made for it does not invoke the continuation
and creates no second stage. -/
theorem timeout_never_ready {TIn TOut : Type} (budget : ChainBudget) (w : World TIn TOut)
    (executor : Option Nat) (ex : Executor TIn TOut) (timeLimit : Int) (f : Future TIn)
    (cont : Future TIn → Except Exn TOut) (contF : Future TIn → Except Exn (Future TOut))
    (hwf : w.wf) (hex : w.executor executor = some ex) (hrun : ex.hung = false)
    (hv : f.valid = true) (hn : f.deferred = true ∨ f.readyAt = none) :
    (∃ w', then_value w executor timeLimit f cont = some (w', ⟨f.kind, w.nextShared⟩) ∧
      w'.timesOut budget executor w.nextShared ex.now timeLimit) ∧
    (∃ w', then_future w executor timeLimit f contF = some (w', ⟨f.kind, w.nextShared⟩) ∧
      w'.timesOut budget executor w.nextShared ex.now timeLimit) := by
  have hfresh := World.wf_fresh w executor ex hwf hex
  constructor
  · obtain ⟨w', hw, hex', _, _⟩ :=
      World.executor_watch { w with nextShared := w.nextShared + 1 } executor ex
        (.continuation ⟨timeLimit, f, ⟨w.nextShared, .unset⟩, cont, 0⟩) hex
    refine ⟨w', ?_, ?_⟩
    · simp only [then_value, hw]
    · exact World.timesOut_of_watch budget w' executor ex _ w.nextShared hex' hrun hfresh
        rfl rfl rfl (Waitable.never_ready_continuation _ hv hn)
  · obtain ⟨w', hw, hex', _, _⟩ :=
      World.executor_watch { w with nextShared := w.nextShared + 1 } executor ex
        (.chaining ⟨timeLimit, f, ⟨w.nextShared, .unset⟩, contF, 0⟩) hex
    refine ⟨w', ?_, ?_⟩
    · simp only [then_future, hw]
    · exact World.timesOut_of_watch budget w' executor ex _ w.nextShared hex' hrun hfresh
        rfl rfl rfl (Waitable.never_ready_chaining _ hv hn)

/-- Witness for C3: a deferred task that is never run, a time limit of 50
microseconds, a polling slice of zero. -/
theorem timeout_never_ready_witness :
    ∃ w', then_value zeroSliceWorld (some 0) 50 deferredTask to_string_cont =
        some (w', ⟨.future, 0⟩) ∧
      w'.timesOut .remaining (some 0) 0 0 50 :=
  (timeout_never_ready .remaining zeroSliceWorld (some 0) ⟨0, 0, [], [], [], false⟩ 50
    deferredTask to_string_cont to_string_async_cont
    (by
      intro ex hex id _
      simp only [zeroSliceWorld, List.mem_singleton] at hex
      subst hex
      rfl)
    rfl rfl rfl (.inl rfl)).1

/-! ### Return-type routing -/

/-- C4. Routing rule: for every input kind `TFuture`, input type `TIn` and
continuation callable with `TFuture<TIn>` and returning `R`, exactly one of
the two forms of `then` is enabled; the flatten form is enabled iff `R` is a
template instance and `TFuture<first template argument of R>` is the same type
as `R`; the direct-value form is enabled in every other case, which for the
type traits read as "template instance" and "first template argument" means:
`R` is not a template instance, or it is one but not an instance of the
input's `TFuture`. -/
theorem routing_exactly_one (tr : typetraits) (TFuture : Template) (TIn : Ty) (F : TFunc)
    (R : Ty) (hR : result_of F (Ty.inst1 TFuture TIn) = some R) :
    (((cont_returns_value_t tr TFuture TIn F).isSome = true ∧
        (cont_returns_future_t tr TFuture TIn F).isSome = false) ∨
      ((cont_returns_value_t tr TFuture TIn F).isSome = false ∧
        (cont_returns_future_t tr TFuture TIn F).isSome = true)) ∧
    ((cont_returns_future_t tr TFuture TIn F).isSome = true ↔
      (tr.is_template R = true ∧ Ty.inst1 TFuture (tr.nth_template_param0 R) = R)) ∧
    ((cont_returns_value_t tr TFuture TIn F).isSome = true ↔
      (tr.is_template R = false ∨ Ty.inst1 TFuture (tr.nth_template_param0 R) ≠ R)) ∧
    ((cont_returns_value_t typetraits.std TFuture TIn F).isSome = true ↔
      (R.templateOf = none ∨ (R.templateOf.isSome = true ∧ ∀ X, Ty.inst1 TFuture X ≠ R))) := by
  have e1 : is_res_encapsulated_in_future tr TFuture TIn F =
      some (decide (Ty.inst1 TFuture (tr.nth_template_param0 R) = R)) := by
    simp [is_res_encapsulated_in_future, hR]
  have e2 : is_res_encapsulated_in_future typetraits.std TFuture TIn F =
      some (decide (Ty.inst1 TFuture (typetraits.std.nth_template_param0 R) = R)) := by
    simp [is_res_encapsulated_in_future, hR]
  refine ⟨?_, ?_, ?_, ?_⟩
  · simp only [cont_returns_value_t, cont_returns_future_t, hR, e1]
    by_cases h1 : tr.is_template R = true <;>
      by_cases h2 : Ty.inst1 TFuture (tr.nth_template_param0 R) = R <;> simp [h1, h2]
  · simp only [cont_returns_future_t, hR, e1]
    by_cases h1 : tr.is_template R = true <;>
      by_cases h2 : Ty.inst1 TFuture (tr.nth_template_param0 R) = R <;>
      simp [h1, h2]
  · simp only [cont_returns_value_t, hR, e1]
    by_cases h1 : tr.is_template R = true <;>
      by_cases h2 : Ty.inst1 TFuture (tr.nth_template_param0 R) = R <;>
      simp [h1, h2]
  · simp only [cont_returns_value_t, hR, e2]
    cases hT : R.templateOf with
    | none => simp [typetraits.std, hT]
    | some c =>
      by_cases h2 : Ty.inst1 TFuture (typetraits.std.nth_template_param0 R) = R
      · have h3 : ¬ ∀ X, Ty.inst1 TFuture X ≠ R := by
          intro h; exact h _ h2
        simp [typetraits.std, hT, h2, h3]
        simpa [typetraits.std] using h2
      · have h3 : ∀ X, Ty.inst1 TFuture X ≠ R := by
          intro X hX
          apply h2
          subst hX
          rfl
        simp [typetraits.std, hT, h3]

/-- Witness for C4: a continuation `std::future<int> -> std::string` on a
`std::future<int>` input is callable, and exactly one form is enabled. -/
theorem routing_exactly_one_witness :
    result_of ⟨Ty.inst1 .future Ty.int, Ty.string⟩ (Ty.inst1 .future Ty.int) = some Ty.string ∧
    (((cont_returns_value_t typetraits.std .future Ty.int
          ⟨Ty.inst1 .future Ty.int, Ty.string⟩).isSome = true ∧
        (cont_returns_future_t typetraits.std .future Ty.int
          ⟨Ty.inst1 .future Ty.int, Ty.string⟩).isSome = false) ∨
      ((cont_returns_value_t typetraits.std .future Ty.int
          ⟨Ty.inst1 .future Ty.int, Ty.string⟩).isSome = false ∧
        (cont_returns_future_t typetraits.std .future Ty.int
          ⟨Ty.inst1 .future Ty.int, Ty.string⟩).isSome = true)) :=
  ⟨by decide,
   (routing_exactly_one typetraits.std .future Ty.int ⟨Ty.inst1 .future Ty.int, Ty.string⟩
      Ty.string (by decide)).1⟩

/-! ### detail::FutureWithForwarding -/

/-- C5 as stated fails: the wrapped result of `satisfiedForwarding` completed
with the error `user 1`, yet `dispatch` with an empty error does not complete
the producer with that error: the producer was satisfied before, the call ends
with `future_error(promise_already_satisfied)` and the producer still holds
the value 7. -/
theorem error_transparency_satisfied_producer :
    satisfiedForwarding.f_.completedWith 5 (.error (.user 1)) ∧
    satisfiedForwarding.dispatch 5 none =
      .throws .promise_already_satisfied
        { satisfiedForwarding with f_ := failedInput.afterGet (some 0) } 5 ∧
    (¬ ∃ self', satisfiedForwarding.dispatch 5 none = .returns self' 5 ∧
        self'.p_.state = .exception (.user 1)) := by
  refine ⟨⟨rfl, rfl, ⟨0, rfl, by decide⟩, rfl⟩, rfl, ?_⟩
  rintro ⟨self', h, _⟩
  have h2 : satisfiedForwarding.dispatch 5 none =
      .throws .promise_already_satisfied
        { satisfiedForwarding with f_ := failedInput.afterGet (some 0) } 5 := rfl
  rw [h2] at h
  cases h

/-- C5 (amended). Error transparency: for every `FutureWithForwarding`, value
or void specialization, whose producer is unset and whose wrapped result
completed with an error `e`, `dispatch` called with an empty error returns and
leaves the producer holding exactly `e` (not a value, not another exception);
the wrapped result has been retrieved once and no time has passed. -/
theorem error_transparency {T : Type} (self : detail.FutureWithForwarding T)
    (selfv : detail.FutureWithForwardingVoid) (now : Nat) (e : Exn)
    (hf : self.f_.completedWith now (.error e)) (hp : self.p_.state = .unset)
    (hfv : selfv.f_.completedWith now (.error e)) (hpv : selfv.p_.state = .unset) :
    self.dispatch now none =
      .returns { self with f_ := self.f_.afterGet self.f_.readyAt,
                           p_ := { self.p_ with state := .exception e } } now ∧
    selfv.dispatch now none =
      .returns { selfv with f_ := selfv.f_.afterGet selfv.f_.readyAt,
                            p_ := { selfv.p_ with state := .exception e } } now := by
  obtain ⟨hv, hd, ⟨t, ht, hle⟩, ho⟩ := hf
  obtain ⟨hvv, hdv, ⟨tv, htv, hlev⟩, hov⟩ := hfv
  constructor
  · simp [detail.FutureWithForwarding.dispatch, Future.get, hv, hd, ht, ho,
      promise.set_exception, hp, Nat.max_eq_left hle]
  · simp [detail.FutureWithForwardingVoid.dispatch, Future.get, hvv, hdv, htv, hov,
      promise.set_exception, hpv, Nat.max_eq_left hlev]

/-- Witness for C5 (amended): an operation with an unset producer whose wrapped
result failed with `user 1`. -/
theorem error_transparency_witness :
    (({ waitLimit := 1000, f_ := failedInput, p_ := ⟨0, .unset⟩ } :
        detail.FutureWithForwarding Nat).dispatch 5 none =
      .returns { waitLimit := 1000, f_ := failedInput.afterGet (some 0),
                 p_ := ⟨0, .exception (.user 1)⟩ } 5) :=
  (error_transparency
    ({ waitLimit := 1000, f_ := failedInput, p_ := ⟨0, .unset⟩ } :
      detail.FutureWithForwarding Nat)
    { waitLimit := 1000,
      f_ := { kind := .shared_future, valid := true, deferred := false, readyAt := some 0,
              outcome := .error (.user 1), gets := 0 },
      p_ := ⟨1, .unset⟩ }
    5 (.user 1)
    ⟨rfl, rfl, ⟨0, rfl, by decide⟩, rfl⟩ rfl
    ⟨rfl, rfl, ⟨0, rfl, by decide⟩, rfl⟩ rfl).1

/-- C6. Value forwarding: for every `FutureWithForwarding<TFuture, T>` whose
producer is unset and whose wrapped result completed with a value `v`,
`dispatch` called with an empty error returns and leaves the producer holding
the value `v`, unmodified. -/
theorem value_forwarding {T : Type} (self : detail.FutureWithForwarding T)
    (now : Nat) (v : T)
    (hf : self.f_.completedWith now (.ok v)) (hp : self.p_.state = .unset) :
    self.dispatch now none =
      .returns { self with f_ := self.f_.afterGet self.f_.readyAt,
                           p_ := { self.p_ with state := .value v } } now := by
  obtain ⟨hv, hd, ⟨t, ht, hle⟩, ho⟩ := hf
  simp [detail.FutureWithForwarding.dispatch, Future.get, hv, hd, ht, ho,
    promise.set_value, hp, Nat.max_eq_left hle]

/-- Witness for C6: the nested result of the example, holding "1821". -/
theorem value_forwarding_witness :
    (({ waitLimit := 1000, f_ := ready .future 3 "1821", p_ := ⟨0, .unset⟩ } :
        detail.FutureWithForwarding String).dispatch 5 none =
      .returns { waitLimit := 1000, f_ := (ready .future 3 "1821").afterGet (some 3),
                 p_ := ⟨0, .value "1821"⟩ } 5) :=
  value_forwarding
    ({ waitLimit := 1000, f_ := ready .future 3 "1821", p_ := ⟨0, .unset⟩ } :
      detail.FutureWithForwarding String)
    5 "1821" ⟨rfl, rfl, ⟨3, rfl, by decide⟩, rfl⟩ rfl

/-- C7 as stated fails: `dispatch` with the non-empty error `user 2` on
`satisfiedWaiting` does not complete the producer with `user 2`: the producer
was satisfied before, `set_exception` raises
`future_error(promise_already_satisfied)`, which leaves `dispatch`, and the
producer still holds the value 7. -/
theorem forced_error_satisfied_producer :
    satisfiedWaiting.dispatch 5 (some (.user 2)) =
      .throws .promise_already_satisfied satisfiedWaiting 5 ∧
    satisfiedWaiting.p_.state = .value 7 ∧
    (¬ ∃ self', satisfiedWaiting.dispatch 5 (some (.user 2)) = .returns self' 5 ∧
        self'.p_.state = .exception (.user 2)) := by
  refine ⟨rfl, rfl, ?_⟩
  rintro ⟨self', h, _⟩
  have h2 : satisfiedWaiting.dispatch 5 (some (.user 2)) =
      .throws .promise_already_satisfied satisfiedWaiting 5 := rfl
  rw [h2] at h
  cases h

/-- C7 (amended). Forced error: for every `FutureWithForwarding`, value or void
specialization, whose producer is unset, for every non-empty error `err` and
every state of the wrapped result, `dispatch(err)` returns at once and leaves
the producer holding exactly `err`; the wrapped result is untouched (not waited
on, not retrieved) and the clock has not moved. -/
theorem forced_error {T : Type} (self : detail.FutureWithForwarding T)
    (selfv : detail.FutureWithForwardingVoid) (now : Nat) (err : Exn)
    (hp : self.p_.state = .unset) (hpv : selfv.p_.state = .unset) :
    self.dispatch now (some err) =
      .returns { self with p_ := { self.p_ with state := .exception err } } now ∧
    selfv.dispatch now (some err) =
      .returns { selfv with p_ := { selfv.p_ with state := .exception err } } now := by
  constructor
  · simp [detail.FutureWithForwarding.dispatch, promise.set_exception, hp]
  · simp [detail.FutureWithForwardingVoid.dispatch, promise.set_exception, hpv]

/-- Witness for C7 (amended): a wrapped result that never becomes ready and a
wrapped result that is ready with another error. -/
theorem forced_error_witness :
    (({ waitLimit := 1000, f_ := neverReady .future, p_ := ⟨0, .unset⟩ } :
        detail.FutureWithForwarding Nat).dispatch 5 (some .WaitableTimedOutException) =
      .returns { waitLimit := 1000, f_ := neverReady .future,
                 p_ := ⟨0, .exception .WaitableTimedOutException⟩ } 5) :=
  (forced_error
    ({ waitLimit := 1000, f_ := neverReady .future, p_ := ⟨0, .unset⟩ } :
      detail.FutureWithForwarding Nat)
    { waitLimit := 1000,
      f_ := { kind := .shared_future, valid := true, deferred := false, readyAt := some 0,
              outcome := .error (.user 1), gets := 0 },
      p_ := ⟨1, .unset⟩ }
    5 .WaitableTimedOutException rfl rfl).1

/-- C8. Probe: for every timeout, `timedWait(timeout)` of either specialization
returns true iff the bounded wait on the wrapped result reports ready (false
when the wait times out, false when the status is deferred); the call changes
neither the wrapped result nor the producer; on a result that has completed
every later call returns true at once, whatever the timeout; and a `dispatch`
after the probe behaves as a `dispatch` without it. -/
theorem probe_frame {T : Type} (self : detail.FutureWithForwarding T)
    (selfv : detail.FutureWithForwardingVoid) (now : Nat) (timeout : Int) :
    (((self.timedWait now timeout).1 = .ok true ↔
        (self.f_.wait_for now timeout).1 = .ok .ready) ∧
      ((self.f_.wait_for now timeout).1 = .ok .timeout →
        (self.timedWait now timeout).1 = .ok false) ∧
      ((self.f_.wait_for now timeout).1 = .ok .deferred →
        (self.timedWait now timeout).1 = .ok false) ∧
      (self.timedWait now timeout).2.1 = self ∧
      (∀ o, self.f_.completedWith now o → ∀ now' timeout', now ≤ now' →
        self.timedWait now' timeout' = (.ok true, self, now')) ∧
      (∀ now' err, (self.timedWait now timeout).2.1.dispatch now' err =
        self.dispatch now' err)) ∧
    (((selfv.timedWait now timeout).1 = .ok true ↔
        (selfv.f_.wait_for now timeout).1 = .ok .ready) ∧
      ((selfv.f_.wait_for now timeout).1 = .ok .timeout →
        (selfv.timedWait now timeout).1 = .ok false) ∧
      ((selfv.f_.wait_for now timeout).1 = .ok .deferred →
        (selfv.timedWait now timeout).1 = .ok false) ∧
      (selfv.timedWait now timeout).2.1 = selfv ∧
      (∀ o, selfv.f_.completedWith now o → ∀ now' timeout', now ≤ now' →
        selfv.timedWait now' timeout' = (.ok true, selfv, now')) ∧
      (∀ now' err, (selfv.timedWait now timeout).2.1.dispatch now' err =
        selfv.dispatch now' err)) := by
  have key : (self.timedWait now timeout).2.1 = self := by
    unfold detail.FutureWithForwarding.timedWait
    rcases self.f_.wait_for now timeout with ⟨r | st, t⟩ <;> rfl
  have keyv : (selfv.timedWait now timeout).2.1 = selfv := by
    unfold detail.FutureWithForwardingVoid.timedWait
    rcases selfv.f_.wait_for now timeout with ⟨r | st, t⟩ <;> rfl
  refine ⟨⟨?_, ?_, ?_, key, ?_, ?_⟩, ⟨?_, ?_, ?_, keyv, ?_, ?_⟩⟩
  · unfold detail.FutureWithForwarding.timedWait
    rcases self.f_.wait_for now timeout with ⟨r | st, t⟩
    · simp
    · cases st <;> simp
  · intro h
    unfold detail.FutureWithForwarding.timedWait
    rcases hw : self.f_.wait_for now timeout with ⟨r | st, t⟩
    · rw [hw] at h; simp at h
    · rw [hw] at h; simp at h; subst h; simp
  · intro h
    unfold detail.FutureWithForwarding.timedWait
    rcases hw : self.f_.wait_for now timeout with ⟨r | st, t⟩
    · rw [hw] at h; simp at h
    · rw [hw] at h; simp at h; subst h; simp
  · intro o ho now' timeout' hle
    simp [detail.FutureWithForwarding.timedWait,
      Future.wait_for_of_completed self.f_ now o ho now' timeout' hle]
  · intro now' err
    rw [key]
  · unfold detail.FutureWithForwardingVoid.timedWait
    rcases selfv.f_.wait_for now timeout with ⟨r | st, t⟩
    · simp
    · cases st <;> simp
  · intro h
    unfold detail.FutureWithForwardingVoid.timedWait
    rcases hw : selfv.f_.wait_for now timeout with ⟨r | st, t⟩
    · rw [hw] at h; simp at h
    · rw [hw] at h; simp at h; subst h; simp
  · intro h
    unfold detail.FutureWithForwardingVoid.timedWait
    rcases hw : selfv.f_.wait_for now timeout with ⟨r | st, t⟩
    · rw [hw] at h; simp at h
    · rw [hw] at h; simp at h; subst h; simp
  · intro o ho now' timeout' hle
    simp [detail.FutureWithForwardingVoid.timedWait,
      Future.wait_for_of_completed selfv.f_ now o ho now' timeout' hle]
  · intro now' err
    rw [keyv]

/-- Witness for C8: a forwarding operation on a result that completed with
"1821" is reported ready by a later probe with a zero timeout, unchanged. -/
theorem probe_frame_witness :
    (ready .future 3 "1821").completedWith 5 (.ok "1821") ∧
    (({ waitLimit := 1000, f_ := ready .future 3 "1821", p_ := ⟨0, .unset⟩ } :
        detail.FutureWithForwarding String).timedWait 9 0 =
      (.ok true, { waitLimit := 1000, f_ := ready .future 3 "1821", p_ := ⟨0, .unset⟩ }, 9)) :=
  ⟨⟨rfl, rfl, ⟨3, rfl, by decide⟩, rfl⟩,
   (probe_frame
      ({ waitLimit := 1000, f_ := ready .future 3 "1821", p_ := ⟨0, .unset⟩ } :
        detail.FutureWithForwarding String)
      { waitLimit := 1000, f_ := ready .shared_future 3 (), p_ := ⟨1, .unset⟩ }
      5 10).1.2.2.2.2.1 (.ok "1821") ⟨rfl, rfl, ⟨3, rfl, by decide⟩, rfl⟩ 9 0 (by decide)⟩

/-! ### Convenience overloads of `then` -/

/-- C9. Default time limit: for both forms, with or without an explicit
executor, `then` called without a time limit equals the full overload of the
same form called with `timeLimit` = 1 hour = 3,600,000,000 microseconds; that
count is positive and the conversion from hours does not overflow the signed
64-bit representation; the return-type alias of a convenience overload is the
one of the full overload of its form and excludes the other form. -/
theorem default_time_limit {TIn TOut : Type} (w : World TIn TOut) (executor : Option Nat)
    (f : Future TIn) (cont : Future TIn → Except Exn TOut)
    (contF : Future TIn → Except Exn (Future TOut))
    (tr : typetraits) (TFuture : Template) (TInTy : Ty) (F : TFunc) :
    then_value_executor w executor f cont = then_value w executor 3600000000 f cont ∧
    then_value_default w f cont = then_value w (Default_Executor w) 3600000000 f cont ∧
    then_future_executor w executor f contF = then_future w executor 3600000000 f contF ∧
    then_future_default w f contF = then_future w (Default_Executor w) 3600000000 f contF ∧
    hours 1 = 3600000000 ∧ (0 : Int) < hours 1 ∧
    (1 : Int) * 3600000000 < 2 ^ 63 ∧ -(2 : Int) ^ 63 ≤ 1 * 3600000000 ∧
    ((cont_returns_value_t tr TFuture TInTy F).isSome = true →
      cont_returns_future_t tr TFuture TInTy F = none) ∧
    ((cont_returns_future_t tr TFuture TInTy F).isSome = true →
      cont_returns_value_t tr TFuture TInTy F = none) := by
  have h : hours 1 = 3600000000 := by decide
  refine ⟨?_, ?_, ?_, ?_, h, ?_, by decide, by decide,
    (cont_returns_exclusive tr TFuture TInTy F).1, (cont_returns_exclusive tr TFuture TInTy F).2⟩
  · simp only [then_value_executor, h]
  · simp only [then_value_default, then_value_timeLimit, h]
  · simp only [then_future_executor, h]
  · simp only [then_future_default, then_future_timeLimit, h]
  · rw [h]; decide

/-- Witness for C9: for the continuation `std::future<int> -> std::string` the
direct-value alias is enabled and the flatten alias is not. -/
theorem default_time_limit_witness :
    (cont_returns_value_t typetraits.std .future Ty.int
        ⟨Ty.inst1 .future Ty.int, Ty.string⟩).isSome = true ∧
    cont_returns_future_t typetraits.std .future Ty.int
        ⟨Ty.inst1 .future Ty.int, Ty.string⟩ = none :=
  ⟨by decide,
   (default_time_limit (⟨[], none, 0⟩ : World Nat String) none (ready .future 0 1821)
      (fun _ => .ok "") (fun _ => .error .no_state) typetraits.std .future Ty.int
      ⟨Ty.inst1 .future Ty.int, Ty.string⟩).2.2.2.2.2.2.2.2.1 (by decide)⟩

/-- C10. Default executor: for both forms `then(timeLimit, f, cont)` equals
`then(Default<Executor>(), timeLimit, f, cont)` of the same form.  When a
default executor `E` has been installed with `Default<Executor>::Setter`, the
call succeeds, registers its one operation on `E` and leaves every other
executor as it was; when no default is installed the call is not defined. -/
theorem default_executor {TIn TOut : Type} (w : World TIn TOut) (E : Nat)
    (ex : Executor TIn TOut) (timeLimit : Int) (f : Future TIn)
    (cont : Future TIn → Except Exn TOut) (contF : Future TIn → Except Exn (Future TOut))
    (hE : w.executors.get? E = some ex) :
    (∀ w0 : World TIn TOut, then_value_timeLimit w0 timeLimit f cont =
        then_value w0 (Default_Executor w0) timeLimit f cont) ∧
    (∀ w0 : World TIn TOut, then_future_timeLimit w0 timeLimit f contF =
        then_future w0 (Default_Executor w0) timeLimit f contF) ∧
    (∃ w2 result,
        then_value_timeLimit (Setter.install w (some E)).1 timeLimit f cont = some (w2, result) ∧
        w2.executors.get? E =
          some (ex.watch (.continuation ⟨timeLimit, f, ⟨w.nextShared, .unset⟩, cont, 0⟩)) ∧
        (∀ j, j ≠ E → w2.executors.get? j = w.executors.get? j)) ∧
    (∃ w2 result,
        then_future_timeLimit (Setter.install w (some E)).1 timeLimit f contF = some (w2, result) ∧
        w2.executors.get? E =
          some (ex.watch (.chaining ⟨timeLimit, f, ⟨w.nextShared, .unset⟩, contF, 0⟩)) ∧
        (∀ j, j ≠ E → w2.executors.get? j = w.executors.get? j)) ∧
    (∀ w0 : World TIn TOut, Default_Executor w0 = none →
        then_value_timeLimit w0 timeLimit f cont = none ∧
        then_future_timeLimit w0 timeLimit f contF = none) := by
  have hlt : E < w.executors.length := by
    rcases Nat.lt_or_ge E w.executors.length with h | h
    · exact h
    · rw [List.get?_eq_none.mpr h] at hE; cases hE
  refine ⟨fun _ => rfl, fun _ => rfl, ?_, ?_, ?_⟩
  · refine ⟨{ executors := w.executors.set E
                  (ex.watch (.continuation ⟨timeLimit, f, ⟨w.nextShared, .unset⟩, cont, 0⟩)),
              dflt := some E, nextShared := w.nextShared + 1 },
            ⟨f.kind, w.nextShared⟩, ?_, ?_, ?_⟩
    · simp only [then_value_timeLimit, then_value, Default_Executor, Setter.install,
        World.watch, hE]
    · simp [hlt]
    · intro j hj
      simp [List.getElem?_set, Ne.symm hj]
  · refine ⟨{ executors := w.executors.set E
                  (ex.watch (.chaining ⟨timeLimit, f, ⟨w.nextShared, .unset⟩, contF, 0⟩)),
              dflt := some E, nextShared := w.nextShared + 1 },
            ⟨f.kind, w.nextShared⟩, ?_, ?_, ?_⟩
    · simp only [then_future_timeLimit, then_future, Default_Executor, Setter.install,
        World.watch, hE]
    · simp [hlt]
    · intro j hj
      simp [List.getElem?_set, Ne.symm hj]
  · intro w0 h0
    simp [then_value_timeLimit, then_future_timeLimit, then_value, then_future, h0, World.watch]

/-- Witness for C10: two executors, the second installed as the default. -/
theorem default_executor_witness :
    ∃ w2 result,
      then_value_timeLimit
        (Setter.install
          (⟨[⟨10000, 0, [], [], [], false⟩, ⟨10000, 0, [], [], [], false⟩], none, 0⟩ :
            World Nat String) (some 1)).1
        50000 (ready .future 0 1821) (fun _ => .ok "1821") = some (w2, result) ∧
      w2.executors.get? 0 = some ⟨10000, 0, [], [], [], false⟩ :=
  match (default_executor
      (⟨[⟨10000, 0, [], [], [], false⟩, ⟨10000, 0, [], [], [], false⟩], none, 0⟩ :
        World Nat String)
      1 ⟨10000, 0, [], [], [], false⟩ 50000 (ready .future 0 1821) (fun _ => .ok "1821")
      (fun _ => .error .no_state) rfl).2.2.1 with
  | ⟨w2, result, h1, _, h3⟩ => ⟨w2, result, h1, h3 0 (by decide)⟩

/-! ### Continuations returning a result of another kind than the input -/

/-- A continuation whose result type is an instance `K<V>` of a class template
other than the input's `TFuture` is routed to the direct-value form, whatever
the type traits are: the flatten alias is disabled and the result type is
`TFuture<K<V>>`. -/
theorem cont_returns_of_other_kind (tr : typetraits) (TFuture K : Template) (TIn V : Ty)
    (F : TFunc) (hK : K ≠ TFuture)
    (hR : result_of F (Ty.inst1 TFuture TIn) = some (Ty.inst1 K V)) :
    cont_returns_future_t tr TFuture TIn F = none ∧
    cont_returns_value_t tr TFuture TIn F = some (Ty.inst1 TFuture (Ty.inst1 K V)) := by
  have hne : Ty.inst1 TFuture (tr.nth_template_param0 (Ty.inst1 K V)) ≠ Ty.inst1 K V := by
    apply Ty.inst1_ne_of_templateOf
    intro h
    apply hK
    simpa [Ty.inst1, Ty.templateOf] using h
  constructor
  · simp [cont_returns_future_t, is_res_encapsulated_in_future, hR, hne]
  · simp [cont_returns_value_t, is_res_encapsulated_in_future, hR, hne]

/-- C11 (the code at the example). For the fourth call of conversion.cpp, a
`std::future<int>` input with a continuation `std::shared_future<int> ->
std::shared_future<std::string>`, the continuation is callable (the input
converts to its parameter) and returns `std::shared_future<std::string>`; for
every reading of the type traits the flatten alias is disabled and the
direct-value overload is selected, with value type `TOut =
std::shared_future<std::string>` and return type
`std::future<std::shared_future<std::string>>`: the result's `get()` yields a
`std::shared_future<std::string>`, not the string. -/
theorem mixed_kinds_routed_to_direct_value (tr : typetraits) :
    result_of mixedKindCont (Ty.inst1 .future Ty.int) =
      some (Ty.inst1 .shared_future Ty.string) ∧
    cont_returns_future_t tr .future Ty.int mixedKindCont = none ∧
    cont_returns_value_t tr .future Ty.int mixedKindCont =
      some (Ty.inst1 .future (Ty.inst1 .shared_future Ty.string)) ∧
    TOut_value .future Ty.int mixedKindCont = some (Ty.inst1 .shared_future Ty.string) ∧
    Ty.inst1 .future (Ty.inst1 .shared_future Ty.string) ≠ Ty.inst1 .future Ty.string := by
  have hR : result_of mixedKindCont (Ty.inst1 .future Ty.int) =
      some (Ty.inst1 .shared_future Ty.string) := by decide
  have h := cont_returns_of_other_kind tr .future .shared_future Ty.int Ty.string
    mixedKindCont (by decide) hR
  exact ⟨hR, h.1, h.2, hR, by decide⟩

/-! ### detail::FutureWithForwarding: totality and the void specialization -/

/-- C14. Outcome totality and failure isolation: for every
`FutureWithForwarding`, value or void specialization, whose producer is unset,
and for every `err` that is non-empty or comes with a wrapped result that has
completed (hence valid), `dispatch(err)` returns normally at once: no exception
leaves the call, also when retrieving the wrapped result raises one, and the
producer is left set, holding exactly one of a value or an error: the forced
error, else the value of the wrapped result, else its error. -/
theorem dispatch_total {T : Type} (self : detail.FutureWithForwarding T)
    (selfv : detail.FutureWithForwardingVoid) (now : Nat) (err : Option Exn)
    (hp : self.p_.state = .unset)
    (hr : err = none → ∃ o, self.f_.completedWith now o)
    (hpv : selfv.p_.state = .unset)
    (hrv : err = none → ∃ o, selfv.f_.completedWith now o) :
    (∃ self', self.dispatch now err = .returns self' now ∧
      self'.p_.id = self.p_.id ∧
      self'.p_.state = forwardedState err self.f_.outcome ∧
      self'.p_.state.isSet = true) ∧
    (∃ selfv', selfv.dispatch now err = .returns selfv' now ∧
      selfv'.p_.id = selfv.p_.id ∧
      selfv'.p_.state = forwardedState err selfv.f_.outcome ∧
      selfv'.p_.state.isSet = true) := by
  constructor
  · cases err with
    | some e =>
      refine ⟨{ self with p_ := { self.p_ with state := .exception e } }, ?_, rfl, rfl, rfl⟩
      simp [detail.FutureWithForwarding.dispatch, promise.set_exception, hp]
    | none =>
      obtain ⟨o, hv, hd, ⟨t, ht, hle⟩, ho⟩ := hr rfl
      cases o with
      | ok v =>
        refine ⟨{ self with f_ := self.f_.afterGet self.f_.readyAt,
                            p_ := { self.p_ with state := .value v } }, ?_, rfl, ?_, rfl⟩
        · simp [detail.FutureWithForwarding.dispatch, Future.get, hv, hd, ht, ho,
            promise.set_value, hp, Nat.max_eq_left hle]
        · simp [forwardedState, ho]
      | error x =>
        refine ⟨{ self with f_ := self.f_.afterGet self.f_.readyAt,
                            p_ := { self.p_ with state := .exception x } }, ?_, rfl, ?_, rfl⟩
        · simp [detail.FutureWithForwarding.dispatch, Future.get, hv, hd, ht, ho,
            promise.set_exception, hp, Nat.max_eq_left hle]
        · simp [forwardedState, ho]
  · cases err with
    | some e =>
      refine ⟨{ selfv with p_ := { selfv.p_ with state := .exception e } }, ?_, rfl, rfl, rfl⟩
      simp [detail.FutureWithForwardingVoid.dispatch, promise.set_exception, hpv]
    | none =>
      obtain ⟨o, hv, hd, ⟨t, ht, hle⟩, ho⟩ := hrv rfl
      cases o with
      | ok v =>
        refine ⟨{ selfv with f_ := selfv.f_.afterGet selfv.f_.readyAt,
                             p_ := { selfv.p_ with state := .value () } }, ?_, rfl, ?_, rfl⟩
        · simp [detail.FutureWithForwardingVoid.dispatch, Future.get, hv, hd, ht, ho,
            promise.set_value, hpv, Nat.max_eq_left hle]
        · simp [forwardedState, ho]
      | error x =>
        refine ⟨{ selfv with f_ := selfv.f_.afterGet selfv.f_.readyAt,
                             p_ := { selfv.p_ with state := .exception x } }, ?_, rfl, ?_, rfl⟩
        · simp [detail.FutureWithForwardingVoid.dispatch, Future.get, hv, hd, ht, ho,
            promise.set_exception, hpv, Nat.max_eq_left hle]
        · simp [forwardedState, ho]

/-- Witness for C14: retrieving the wrapped result raises `user 1`; the call
returns and the producer holds that error. -/
theorem dispatch_total_witness :
    ∃ self', ({ waitLimit := 1000, f_ := failedInput, p_ := ⟨0, .unset⟩ } :
        detail.FutureWithForwarding Nat).dispatch 5 none = .returns self' 5 ∧
      self'.p_.state = .exception (.user 1) :=
  match (dispatch_total
      ({ waitLimit := 1000, f_ := failedInput, p_ := ⟨0, .unset⟩ } :
        detail.FutureWithForwarding Nat)
      { waitLimit := 1000, f_ := ready .shared_future 0 (), p_ := ⟨1, .unset⟩ }
      5 none rfl (fun _ => ⟨_, rfl, rfl, ⟨0, rfl, by decide⟩, rfl⟩)
      rfl (fun _ => ⟨_, rfl, rfl, ⟨0, rfl, by decide⟩, rfl⟩)).1 with
  | ⟨self', h1, _, h3, _⟩ => ⟨self', h1, h3⟩

/-- C15. No-value specialization: `FutureWithForwarding<TFuture, void>` behaves
as the value specialization instantiated at the one-element type: `timedWait`
gives the same answer at the same clock reading and leaves the same object;
for every `err` and every state of the wrapped result and of the producer
`dispatch(err)` ends the same way with the same object.  On an unset producer
(with a completed wrapped result when `err` is empty) the producer ends with
success and no value iff `err` is empty and the wrapped result completed
without error, and otherwise with the same error (the forced one, else the one
of the wrapped result); the wrapped result is retrieved, before completion is
marked, exactly when `err` is empty. -/
theorem void_specialization_refines (selfv : detail.FutureWithForwardingVoid) (now : Nat)
    (timeout : Int) (err : Option Exn) :
    ((selfv.timedWait now timeout).1, (selfv.timedWait now timeout).2.1.toUnit,
        (selfv.timedWait now timeout).2.2) = selfv.toUnit.timedWait now timeout ∧
    (selfv.dispatch now err).map detail.FutureWithForwardingVoid.toUnit =
      selfv.toUnit.dispatch now err ∧
    (selfv.p_.state = .unset → (err = none → ∃ o, selfv.f_.completedWith now o) →
      ∃ selfv', selfv.dispatch now err = .returns selfv' now ∧
        (selfv'.p_.state = .value () ↔ (err = none ∧ selfv.f_.outcome = .ok ())) ∧
        (∀ e, err = some e → selfv'.p_.state = .exception e) ∧
        (∀ x, err = none → selfv.f_.outcome = .error x → selfv'.p_.state = .exception x) ∧
        (err = none → selfv'.f_ = selfv.f_.afterGet selfv.f_.readyAt) ∧
        (err ≠ none → selfv'.f_ = selfv.f_)) := by
  refine ⟨?_, ?_, ?_⟩
  · simp only [detail.FutureWithForwardingVoid.timedWait, detail.FutureWithForwarding.timedWait,
      detail.FutureWithForwardingVoid.toUnit]
    rcases selfv.f_.wait_for now timeout with ⟨r | st, t⟩ <;> rfl
  · rcases selfv with ⟨lim, f, ⟨pid, st⟩⟩
    cases err with
    | some e =>
      cases st <;>
        simp [detail.FutureWithForwardingVoid.dispatch, detail.FutureWithForwarding.dispatch,
          detail.FutureWithForwardingVoid.toUnit, promise.set_exception, Outcome.map]
    | none =>
      cases hg : f.get now with
      | none =>
        simp [detail.FutureWithForwardingVoid.dispatch, detail.FutureWithForwarding.dispatch,
          detail.FutureWithForwardingVoid.toUnit, hg, Outcome.map]
      | some x =>
        obtain ⟨r, f', t⟩ := x
        cases r <;> cases st <;>
          simp [detail.FutureWithForwardingVoid.dispatch, detail.FutureWithForwarding.dispatch,
            detail.FutureWithForwardingVoid.toUnit, hg, promise.set_value,
            promise.set_exception, Outcome.map]
  · intro hp hr
    cases err with
    | some e =>
      refine ⟨{ selfv with p_ := { selfv.p_ with state := .exception e } }, ?_, ?_, ?_, ?_, ?_, ?_⟩
      · simp [detail.FutureWithForwardingVoid.dispatch, promise.set_exception, hp]
      · simp
      · intro e' he
        cases he
        rfl
      · intro x h
        cases h
      · intro h
        cases h
      · intro _
        rfl
    | none =>
      obtain ⟨o, hv, hd, ⟨t, ht, hle⟩, ho⟩ := hr rfl
      cases o with
      | ok v =>
        refine ⟨{ selfv with f_ := selfv.f_.afterGet selfv.f_.readyAt,
                             p_ := { selfv.p_ with state := .value () } },
          ?_, ?_, ?_, ?_, ?_, ?_⟩
        · simp [detail.FutureWithForwardingVoid.dispatch, Future.get, hv, hd, ht, ho,
            promise.set_value, hp, Nat.max_eq_left hle]
        · simp [ho]
        · intro e h
          cases h
        · intro x _ hx
          rw [ho] at hx
          cases hx
        · intro _
          rfl
        · intro h
          exact absurd rfl h
      | error x =>
        refine ⟨{ selfv with f_ := selfv.f_.afterGet selfv.f_.readyAt,
                             p_ := { selfv.p_ with state := .exception x } },
          ?_, ?_, ?_, ?_, ?_, ?_⟩
        · simp [detail.FutureWithForwardingVoid.dispatch, Future.get, hv, hd, ht, ho,
            promise.set_exception, hp, Nat.max_eq_left hle]
        · simp [ho]
        · intro e h
          cases h
        · intro y _ hy
          rw [ho] at hy
          cases hy
          rfl
        · intro _
          rfl
        · intro h
          exact absurd rfl h

/-- Witness for C15: a void operation whose wrapped result completed without
error ends with success and no value. -/
theorem void_specialization_refines_witness :
    ∃ selfv', ({ waitLimit := 1000, f_ := ready .shared_future 0 (), p_ := ⟨1, .unset⟩ } :
        detail.FutureWithForwardingVoid).dispatch 5 none = .returns selfv' 5 ∧
      selfv'.p_.state = .value () :=
  match (void_specialization_refines
      { waitLimit := 1000, f_ := ready .shared_future 0 (), p_ := ⟨1, .unset⟩ }
      5 10 none).2.2 rfl (fun _ => ⟨_, rfl, rfl, ⟨0, rfl, by decide⟩, rfl⟩) with
  | ⟨selfv', h1, h2, _⟩ => ⟨selfv', h1, h2.2 ⟨rfl, rfl⟩⟩

/-! ### Registration by `then` -/

/-- Registration through a pointer changes no executor but the one pointed to. -/
theorem World.watch_frame {TIn TOut : Type} (w w' : World TIn TOut) (executor : Option Nat)
    (op : Waitable TIn TOut) (hw : w.watch executor op = some w') (other : Option Nat)
    (hne : other ≠ executor) : w'.executor other = w.executor other := by
  cases executor with
  | none => simp [World.watch] at hw
  | some i =>
    simp only [World.watch] at hw
    cases hg : w.executors.get? i with
    | none => rw [hg] at hw; simp at hw
    | some ex0 =>
      rw [hg] at hw
      simp only [Option.some.injEq] at hw
      subst hw
      cases other with
      | none => rfl
      | some j =>
        have hji : i ≠ j := fun h => hne (by rw [h])
        simp [World.executor, List.getElem?_set, hji]

/-- C13. Single registration: every call of the full `then(executor, timeLimit,
f, cont)`, in either form, through a pointer to an executor, registers exactly
one operation on that executor and changes no other executor: the pending set
grows by one operation, registered at the current clock reading, that carries
the given `timeLimit`, the given input `f` as it was (not waited on, not
retrieved), the continuation (not yet invoked) and the unset producer whose
shared state the returned result reads; the clock, the active set and the
record of `complete()` calls are as before.  The returned result is unset
after the call and, after any number of worker rounds, it is set only if a
`complete()` call has been made for its producer. -/
theorem single_registration {TIn TOut : Type} (budget : ChainBudget) (w : World TIn TOut)
    (executor : Option Nat) (ex : Executor TIn TOut) (timeLimit : Int) (f : Future TIn)
    (cont : Future TIn → Except Exn TOut) (contF : Future TIn → Except Exn (Future TOut))
    (hwf : w.wf) (hex : w.executor executor = some ex) :
    (∃ w' ex', then_value w executor timeLimit f cont = some (w', ⟨f.kind, w.nextShared⟩) ∧
      w'.executor executor = some ex' ∧
      ex' = { ex with pending := ex.pending ++
        [⟨.continuation ⟨timeLimit, f, ⟨w.nextShared, .unset⟩, cont, 0⟩, ex.now⟩] } ∧
      (∀ other, other ≠ executor → w'.executor other = w.executor other) ∧
      ex'.resultState w.nextShared = .unset ∧
      ex'.completionsOf w.nextShared = [] ∧
      (∀ n, (ex'.run budget n).resultState w.nextShared ≠ .unset →
        (ex'.run budget n).completionsOf w.nextShared ≠ [])) ∧
    (∃ w' ex', then_future w executor timeLimit f contF = some (w', ⟨f.kind, w.nextShared⟩) ∧
      w'.executor executor = some ex' ∧
      ex' = { ex with pending := ex.pending ++
        [⟨.chaining ⟨timeLimit, f, ⟨w.nextShared, .unset⟩, contF, 0⟩, ex.now⟩] } ∧
      (∀ other, other ≠ executor → w'.executor other = w.executor other) ∧
      ex'.resultState w.nextShared = .unset ∧
      ex'.completionsOf w.nextShared = [] ∧
      (∀ n, (ex'.run budget n).resultState w.nextShared ≠ .unset →
        (ex'.run budget n).completionsOf w.nextShared ≠ [])) := by
  have hfresh := World.wf_fresh w executor ex hwf hex
  obtain ⟨_, _, hc0⟩ := Executor.not_mentioned ex w.nextShared hfresh
  constructor
  · obtain ⟨w', hw, hex', _, _⟩ :=
      World.executor_watch { w with nextShared := w.nextShared + 1 } executor ex
        (.continuation ⟨timeLimit, f, ⟨w.nextShared, .unset⟩, cont, 0⟩) hex
    refine ⟨w', _, ?_, hex', rfl, ?_, ?_, hc0, ?_⟩
    · simp only [then_value, hw]
    · intro other hne
      exact World.watch_frame _ w' executor _ hw other hne
    · exact (Executor.resultState_of_completions _ _).1 hc0
    · intro n hn hc
      exact hn ((Executor.resultState_of_completions _ _).1 hc)
  · obtain ⟨w', hw, hex', _, _⟩ :=
      World.executor_watch { w with nextShared := w.nextShared + 1 } executor ex
        (.chaining ⟨timeLimit, f, ⟨w.nextShared, .unset⟩, contF, 0⟩) hex
    refine ⟨w', _, ?_, hex', rfl, ?_, ?_, hc0, ?_⟩
    · simp only [then_future, hw]
    · intro other hne
      exact World.watch_frame _ w' executor _ hw other hne
    · exact (Executor.resultState_of_completions _ _).1 hc0
    · intro n hn hc
      exact hn ((Executor.resultState_of_completions _ _).1 hc)

/-- Witness for C13: the first call of the example on the default executor. -/
theorem single_registration_witness :
    ∃ w' ex', then_value freshWorld (some 0) 50000 (ready .future 0 1821) to_string_cont =
        some (w', ⟨.future, 0⟩) ∧
      w'.executor (some 0) = some ex' ∧
      ex' = { q := 10, now := 0,
              pending := [⟨.continuation
                ⟨50000, ready .future 0 1821, ⟨0, .unset⟩, to_string_cont, 0⟩, 0⟩],
              active := [], completions := [], hung := false } :=
  match (single_registration .remaining freshWorld (some 0) ⟨10, 0, [], [], [], false⟩ 50000
      (ready .future 0 1821) to_string_cont to_string_async_cont freshWorld_wf rfl).1 with
  | ⟨w', ex', h1, h2, h3, _⟩ => ⟨w', ex', h1, h2, h3⟩

end thousandeyes.futures
